/-
Verification of the storage core of MiniBusTub: a shallow embedding of the
LRU-K replacer, the buffer pool manager, the disk manager's page read, and
the disk-based extendible hash table (header / directory / bucket pages),
each translated from the corresponding C++ source file, together with
theorems settling the specification claims C1..C10.

Conventions of the embedding:
- machine integers become Nat / Int; `uint32_t` arithmetic that can wrap is
  reduced mod 2^32 where the source can actually wrap;
- C++ arrays inside a page become Lists whose length is the array size; a
  page freshly obtained from the buffer pool is zero-filled (the buffer pool
  manager calls ResetMemory on it), so "uninitialized" array cells are 0;
- std::unordered_map becomes an association list; iteration order of the
  map is the list order, so theorems quantifying over states cover every
  iteration order;
- BUSTUB_ASSERT aborts the process; an aborting call is modelled as leaving
  the state unchanged (no further state is reachable in C++, and the
  unchanged state trivially satisfies the invariants proved here).
-/
import Mathlib

namespace MiniBusTub

/-! ## LRU-K replacer (lru_k_replacer.h / src/buffer/lru_k_replacer.cpp)

Backward-k-distances are `size_t` values; the header declares
`const size_t INF = INT32_MAX`, a finite number returned for frames with
fewer than k recorded accesses and compared with the ordinary numeric
order (so a real distance above `INF` would outrank a fewer-than-k
frame). The embedding keeps distances as `Nat` with that same constant. -/

def INF : Nat := 2147483647

/-- One `LRUKNode`: access-timestamp history (most recent first), the
parameter k and the evictable flag. The C++ node also stores its frame id,
which the embedding keeps as the key of the `node_store` association list. -/
structure LRUKNode where
  history : List Nat
  k : Nat
  is_evictable : Bool
deriving DecidableEq

/-- `LRUKNode::GetKDistance`: the finite constant `INF` when fewer than k
accesses are recorded, else current timestamp minus the k-th most recent
access (the loop advances the iterator k-1 times from the front of the
history). -/
def LRUKNode.GetKDistance (n : LRUKNode) (current_timestamp : Nat) : Nat :=
  if n.history.length < n.k then INF
  else current_timestamp - n.history.getD (n.k - 1) 0

/-- `LRUKNode::GetEarlyTimestamp`: the oldest recorded timestamp,
`history_.back()`. -/
def LRUKNode.GetEarlyTimestamp (n : LRUKNode) : Nat :=
  n.history.getLastD 0

/-- `LRUKNode::RecordAccess`: push the timestamp at the front. -/
def LRUKNode.RecordAccess (n : LRUKNode) (current_timestamp : Nat) : LRUKNode :=
  { n with history := current_timestamp :: n.history }

/-- The replacer state: `node_store_` (association list keyed by frame id),
the timestamp counter, the capacity and the evictable count. -/
structure LRUKReplacerState where
  node_store : List (Nat × LRUKNode)
  current_timestamp : Nat
  replacer_size : Nat
  evictable_size : Nat
  k : Nat
deriving DecidableEq

/-- Key lookup in an association list (the map's `find`). -/
def lookupNode (s : List (Nat × LRUKNode)) (fid : Nat) : Option LRUKNode :=
  (s.find? (fun e => e.1 == fid)).map (fun e => e.2)

/-- Map update `node_store_[fid] = n`: replace the entry when the key is
present, append otherwise. -/
def setNode (s : List (Nat × LRUKNode)) (fid : Nat) (n : LRUKNode) :
    List (Nat × LRUKNode) :=
  if s.any (fun e => e.1 == fid) then
    s.map (fun e => if e.1 == fid then (fid, n) else e)
  else s ++ [(fid, n)]

/-- Map erase `node_store_.erase(fid)` (removes the entry with that key). -/
def eraseNode (s : List (Nat × LRUKNode)) (fid : Nat) : List (Nat × LRUKNode) :=
  s.filter (fun e => !(e.1 == fid))

/-- Accumulator of `LRUKReplacer::Evict`'s selection loop: the running
maximal distance `mx_k_distance` (initialized to 0), the tie-break
timestamp `early_timestamp` (declared without an initializer in the C++;
its arbitrary initial contents are a parameter of the embedding) and
`evict_id` (initialized to -1). -/
structure EvictAcc where
  mx : Nat
  early : Nat
  evict_id : Int
deriving DecidableEq

/-- The body of `LRUKReplacer::Evict`'s range-for over `node_store_`:
skip non-evictable nodes; a strictly larger distance replaces the
candidate; an equal distance replaces it when its oldest timestamp is
strictly smaller. -/
def evictLoop (current_timestamp : Nat) :
    List (Nat × LRUKNode) → EvictAcc → EvictAcc
  | [], acc => acc
  | (fid, node) :: rest, acc =>
    if !node.is_evictable then evictLoop current_timestamp rest acc
    else
      let now_k_distance := node.GetKDistance current_timestamp
      if now_k_distance > acc.mx then
        evictLoop current_timestamp rest
          ⟨now_k_distance, node.GetEarlyTimestamp, Int.ofNat fid⟩
      else if now_k_distance = acc.mx then
        let now_early_timestamp := node.GetEarlyTimestamp
        if acc.early > now_early_timestamp then
          evictLoop current_timestamp rest ⟨acc.mx, now_early_timestamp, Int.ofNat fid⟩
        else evictLoop current_timestamp rest acc
      else evictLoop current_timestamp rest acc

/-- `LRUKReplacer::Evict`, with the uninitialized `early_timestamp`
modelled by the parameter `einit`. On failure (`evict_id == -1`) returns
`none` and the unchanged state; on success removes the node and decrements
the evictable count. -/
def LRUKReplacerState.EvictWith (s : LRUKReplacerState) (einit : Nat) :
    Option Nat × LRUKReplacerState :=
  let acc := evictLoop s.current_timestamp s.node_store ⟨0, einit, -1⟩
  if acc.evict_id = -1 then (none, s)
  else
    let f := acc.evict_id.toNat
    (some f, { s with node_store := eraseNode s.node_store f,
                      evictable_size := s.evictable_size - 1 })

/-- `Evict` as called by the buffer pool manager; the embedding fixes the
uninitialized tie-break variable to 0. -/
def LRUKReplacerState.Evict (s : LRUKReplacerState) : Option Nat × LRUKReplacerState :=
  s.EvictWith 0

/-- `LRUKReplacer::RecordAccess`: an unknown frame gets a fresh
non-evictable node carrying the incremented timestamp; a known frame gets
the incremented timestamp pushed onto its history. The out-of-range
assertion is modelled as leaving the state unchanged. -/
def LRUKReplacerState.RecordAccess (s : LRUKReplacerState) (fid : Nat) :
    LRUKReplacerState :=
  if s.replacer_size ≤ fid then s
  else
    match lookupNode s.node_store fid with
    | none =>
      { s with current_timestamp := s.current_timestamp + 1,
               node_store := setNode s.node_store fid
                 ⟨[s.current_timestamp + 1], s.k, false⟩ }
    | some n =>
      { s with current_timestamp := s.current_timestamp + 1,
               node_store := setNode s.node_store fid
                 (n.RecordAccess (s.current_timestamp + 1)) }

/-- `LRUKReplacer::SetEvictable`: toggle the flag and adjust the evictable
count; the missing-frame assertion is modelled as leaving the state
unchanged. -/
def LRUKReplacerState.SetEvictable (s : LRUKReplacerState) (fid : Nat)
    (set_evictable : Bool) : LRUKReplacerState :=
  match lookupNode s.node_store fid with
  | none => s
  | some n =>
    if n.is_evictable && !set_evictable then
      { s with node_store := setNode s.node_store fid { n with is_evictable := false },
               evictable_size := s.evictable_size - 1 }
    else if !n.is_evictable && set_evictable then
      { s with node_store := setNode s.node_store fid { n with is_evictable := true },
               evictable_size := s.evictable_size + 1 }
    else s

/-- `LRUKReplacer::Remove`: a missing frame is a no-op; a non-evictable
frame trips the assertion (modelled as leaving the state unchanged);
otherwise erase the node and decrement the evictable count. -/
def LRUKReplacerState.Remove (s : LRUKReplacerState) (fid : Nat) :
    LRUKReplacerState :=
  match lookupNode s.node_store fid with
  | none => s
  | some n =>
    if !n.is_evictable then s
    else
      { s with node_store := eraseNode s.node_store fid,
               evictable_size := s.evictable_size - 1 }

/-- `LRUKReplacer::Size`: the evictable count. -/
def LRUKReplacerState.Size (s : LRUKReplacerState) : Nat :=
  s.evictable_size

/-- The replacer constructor: empty store, timestamp counter at 0. -/
def LRUKReplacerState.new (num_frames k : Nat) : LRUKReplacerState :=
  { node_store := [], current_timestamp := 0, replacer_size := num_frames,
    evictable_size := 0, k := k }

/-! ## Extendible hash table pages

Header page (storage/page/extendible_htable_header_page.cpp), directory
page (storage/page/extendible_htable_directory_page.cpp) and bucket page
(storage/page/extendible_htable_bucket_page.cpp). `INVALID_PAGE_ID` is -1.
The on-page arrays have 2^9 = 512 slots; a fresh page is zero-filled by
the buffer pool, so array cells not written by `Init` are 0. -/

def HTABLE_HEADER_ARRAY_SIZE : Nat := 512

def HTABLE_DIRECTORY_ARRAY_SIZE : Nat := 512

structure HeaderPage where
  directory_page_ids : List Int
  max_depth : Nat
deriving DecidableEq

/-- `ExtendibleHTableHeaderPage::Init`: store the max depth and fill the
first `1 << max_depth` directory page ids with `INVALID_PAGE_ID`. -/
def HeaderPage.Init (max_depth : Nat) : HeaderPage :=
  { max_depth := max_depth,
    directory_page_ids :=
      List.replicate (1 <<< max_depth) (-1) ++
      List.replicate (HTABLE_HEADER_ARRAY_SIZE - (1 <<< max_depth)) 0 }

/-- `HashToDirectoryIndex`: the top `max_depth` bits of the 32-bit hash,
0 when `max_depth` is 0. -/
def HeaderPage.HashToDirectoryIndex (h : HeaderPage) (hash : Nat) : Nat :=
  if h.max_depth > 0 then hash >>> (32 - h.max_depth) else 0

def HeaderPage.GetDirectoryPageId (h : HeaderPage) (directory_idx : Nat) : Int :=
  h.directory_page_ids.getD directory_idx 0

def HeaderPage.SetDirectoryPageId (h : HeaderPage) (directory_idx : Nat)
    (directory_page_id : Int) : HeaderPage :=
  { h with directory_page_ids := h.directory_page_ids.set directory_idx directory_page_id }

structure DirectoryPage where
  max_depth : Nat
  global_depth : Nat
  local_depths : List Nat
  bucket_page_ids : List Int
deriving DecidableEq

/-- `ExtendibleHTableDirectoryPage::Init`: sets `max_depth_` and
`global_depth_ = 0`; the arrays keep the page's prior contents, which for a
page fresh from the buffer pool are zeros. -/
def DirectoryPage.Init (max_depth : Nat) : DirectoryPage :=
  { max_depth := max_depth, global_depth := 0,
    local_depths := List.replicate HTABLE_DIRECTORY_ARRAY_SIZE 0,
    bucket_page_ids := List.replicate HTABLE_DIRECTORY_ARRAY_SIZE 0 }

def DirectoryPage.GetGlobalDepthMask (d : DirectoryPage) : Nat :=
  (1 <<< d.global_depth) - 1

def DirectoryPage.HashToBucketIndex (d : DirectoryPage) (hash : Nat) : Nat :=
  hash &&& d.GetGlobalDepthMask

def DirectoryPage.GetBucketPageId (d : DirectoryPage) (bucket_idx : Nat) : Int :=
  d.bucket_page_ids.getD bucket_idx 0

def DirectoryPage.SetBucketPageId (d : DirectoryPage) (bucket_idx : Nat)
    (bucket_page_id : Int) : DirectoryPage :=
  { d with bucket_page_ids := d.bucket_page_ids.set bucket_idx bucket_page_id }

def DirectoryPage.GetLocalDepth (d : DirectoryPage) (bucket_idx : Nat) : Nat :=
  d.local_depths.getD bucket_idx 0

def DirectoryPage.SetLocalDepth (d : DirectoryPage) (bucket_idx : Nat)
    (local_depth : Nat) : DirectoryPage :=
  { d with local_depths := d.local_depths.set bucket_idx local_depth }

def DirectoryPage.IncrLocalDepth (d : DirectoryPage) (bucket_idx : Nat) : DirectoryPage :=
  d.SetLocalDepth bucket_idx (d.GetLocalDepth bucket_idx + 1)

/-- `GetSplitImageIndex`: flip bit `local_depths_[bucket_idx]`. -/
def DirectoryPage.GetSplitImageIndex (d : DirectoryPage) (bucket_idx : Nat) : Nat :=
  bucket_idx ^^^ (1 <<< d.GetLocalDepth bucket_idx)

/-- `GetLocalDepthMask` as written in the source: the shift amount is read
from `bucket_page_ids_[bucket_idx]` (converted int32 -> uint32), not from
`local_depths_[bucket_idx]`. -/
def DirectoryPage.GetLocalDepthMask (d : DirectoryPage) (bucket_idx : Nat) : Nat :=
  let local_depth := (d.bucket_page_ids.getD bucket_idx 0).toNat
  (1 <<< local_depth) - 1

/-- The helper loop of `IncrGlobalDepth`: copy `cnt` entries from index
`j` (starting at 0) to index `half + j`. -/
def copyUpAux (half : Nat) : Nat → Nat → List Nat × List Int → List Nat × List Int
  | 0, _, p => p
  | Nat.succ cnt, j, (lds, ids) =>
    copyUpAux half cnt (j + 1)
      (lds.set (half + j) (lds.getD j 0), ids.set (half + j) (ids.getD j 0))

/-- `IncrGlobalDepth`: increment the global depth, then copy the bucket
page id and local depth of every index of the old directory range to its
new upper-half image. -/
def DirectoryPage.IncrGlobalDepth (d : DirectoryPage) : DirectoryPage :=
  let g := d.global_depth + 1
  let half := 1 <<< (g - 1)
  let (lds, ids) := copyUpAux half half 0 (d.local_depths, d.bucket_page_ids)
  { d with global_depth := g, local_depths := lds, bucket_page_ids := ids }

def DirectoryPage.Size (d : DirectoryPage) : Nat :=
  1 <<< d.global_depth

def DirectoryPage.MaxSize (d : DirectoryPage) : Nat :=
  1 <<< d.max_depth

def DirectoryPage.GetGlobalDepth (d : DirectoryPage) : Nat :=
  d.global_depth

/-- A bucket page: the entry array (length = the `max_size` fixed at
`Init`; cells at positions at or beyond `size` are stale), the live entry
count and the capacity. -/
structure BucketPage (K V : Type) where
  array : List (K × V)
  size : Nat
  max_size : Nat
deriving DecidableEq

variable {K V : Type} [Inhabited K] [Inhabited V]

/-- `ExtendibleHTableBucketPage::Init`: `size_ = 0`, `max_size_ =
max_size`; the array keeps the zero-filled contents of the fresh page. -/
def BucketPage.Init (max_size : Nat) : BucketPage K V :=
  { array := List.replicate max_size (default, default), size := 0, max_size := max_size }

def BucketPage.IsFull (b : BucketPage K V) : Bool :=
  b.size == b.max_size

def BucketPage.IsEmpty (b : BucketPage K V) : Bool :=
  b.size == 0

def BucketPage.KeyAt (b : BucketPage K V) (bucket_idx : Nat) : K :=
  (b.array.getD bucket_idx default).1

def BucketPage.ValueAt (b : BucketPage K V) (bucket_idx : Nat) : V :=
  (b.array.getD bucket_idx default).2

/-- `Lookup`: linear scan of the live prefix; `!cmp(key, array_[i].first)`
is "the comparator returned 0", i.e. the keys are equal. -/
def BucketPage.Lookup (b : BucketPage K V) (cmp : K → K → Int) (key : K) : Option V :=
  ((b.array.take b.size).find? (fun e => cmp key e.1 == 0)).map (fun e => e.2)

/-- `Insert`: fail when full or when the key is already present, else
write the entry at position `size_` and increment the size. -/
def BucketPage.Insert (b : BucketPage K V) (cmp : K → K → Int) (key : K) (value : V) :
    BucketPage K V × Bool :=
  if b.IsFull then (b, false)
  else if (b.array.take b.size).any (fun e => cmp key e.1 == 0) then (b, false)
  else ({ b with array := b.array.set b.size (key, value), size := b.size + 1 }, true)

/-- `Remove`: find the key in the live prefix, swap its slot with slot
`size_ - 1` and decrement the size. -/
def BucketPage.Remove (b : BucketPage K V) (cmp : K → K → Int) (key : K) :
    BucketPage K V × Bool :=
  match (b.array.take b.size).findIdx? (fun e => cmp key e.1 == 0) with
  | none => (b, false)
  | some i =>
    let last := b.array.getD (b.size - 1) default
    let cur := b.array.getD i default
    ({ b with array := (b.array.set i last).set (b.size - 1) cur, size := b.size - 1 }, true)

/-! ## Disk extendible hash table
(container/disk/hash/disk_extendible_hash_table.cpp)

The buffer pool below the table is modelled as a page store: an
association list from page id to typed page content plus the monotone
page-id allocator. `NewPageGuarded` hands out the next page id with
zero-filled content (`HPage.raw`); each `Init`/`AsMut` write is a store
update. The hash function and comparator are the constructor parameters
`hash_fn` / `cmp` of the C++ template. -/

inductive HPage (K V : Type) where
  | header (h : HeaderPage) : HPage K V
  | directory (d : DirectoryPage) : HPage K V
  | bucket (b : BucketPage K V) : HPage K V
  | raw : HPage K V
deriving DecidableEq

structure HTParams (K V : Type) where
  hash_fn : K → Nat
  cmp : K → K → Int
  header_max_depth : Nat
  directory_max_depth : Nat
  bucket_max_size : Nat

structure HTState (K V : Type) where
  pages : List (Int × HPage K V)
  next_page_id : Int
  header_page_id : Int
deriving DecidableEq

def getHPage (st : HTState K V) (pid : Int) : Option (HPage K V) :=
  (st.pages.find? (fun e => e.1 == pid)).map (fun e => e.2)

def setHPage (st : HTState K V) (pid : Int) (pg : HPage K V) : HTState K V :=
  { st with pages :=
      if st.pages.any (fun e => e.1 == pid) then
        st.pages.map (fun e => if e.1 == pid then (pid, pg) else e)
      else st.pages ++ [(pid, pg)] }

/-- `bpm_->NewPageGuarded(&page_id)`: allocate the next page id with
zero-filled content. -/
def htNewPage (st : HTState K V) : HTState K V × Int :=
  ({ st with pages := st.pages ++ [(st.next_page_id, .raw)],
             next_page_id := st.next_page_id + 1 },
   st.next_page_id)

/-- Reading a page as a header page (`As<ExtendibleHTableHeaderPage>`);
a missing or differently-typed page reads as an all-zero page. -/
def asHeader : Option (HPage K V) → HeaderPage
  | some (.header h) => h
  | _ => { directory_page_ids := List.replicate HTABLE_HEADER_ARRAY_SIZE 0, max_depth := 0 }

def asDirectory : Option (HPage K V) → DirectoryPage
  | some (.directory d) => d
  | _ => { max_depth := 0, global_depth := 0,
           local_depths := List.replicate HTABLE_DIRECTORY_ARRAY_SIZE 0,
           bucket_page_ids := List.replicate HTABLE_DIRECTORY_ARRAY_SIZE 0 }

def asBucket : Option (HPage K V) → BucketPage K V
  | some (.bucket b) => b
  | _ => { array := [], size := 0, max_size := 0 }

namespace DiskExtendibleHashTable

/-- `Hash`: downcast of the hash function's result to 32 bits. -/
def Hash (p : HTParams K V) (key : K) : Nat :=
  p.hash_fn key % 4294967296

/-- The constructor: take a page from the buffer pool as the header page
and initialize it. -/
def new (p : HTParams K V) : HTState K V :=
  let st : HTState K V := { pages := [], next_page_id := 0, header_page_id := 0 }
  let (st, header_page_id) := htNewPage st
  let st := setHPage st header_page_id (.header (HeaderPage.Init p.header_max_depth))
  { st with header_page_id := header_page_id }

/-- `GetValue`: descend header -> directory -> bucket and scan the bucket;
the returned list holds the values appended to the caller's result
vector. -/
def GetValue (p : HTParams K V) (st : HTState K V) (key : K) : Bool × List V :=
  let hash_key := Hash p key
  let header_page := asHeader (getHPage st st.header_page_id)
  let directory_index := header_page.HashToDirectoryIndex hash_key
  let directory_page_id := header_page.GetDirectoryPageId directory_index
  if directory_page_id = -1 then (false, [])
  else
    let directory_page := asDirectory (getHPage st directory_page_id)
    let bucket_index := directory_page.HashToBucketIndex hash_key
    let bucket_page := asBucket (getHPage st (directory_page.GetBucketPageId bucket_index))
    match bucket_page.Lookup p.cmp key with
    | some v => (true, [v])
    | none => (false, [])

/-- `InsertToNewBucket`: allocate and initialize a bucket page, try the
insert, and on success point directory slot `bucket_idx` at it with local
depth 0. -/
def InsertToNewBucket (p : HTParams K V) (st : HTState K V) (dir_pid : Int)
    (bucket_idx : Nat) (key : K) (value : V) : HTState K V × Bool :=
  let (st, new_bucket_page_id) := htNewPage st
  let new_bucket_page : BucketPage K V := BucketPage.Init p.bucket_max_size
  let (new_bucket_page, ok) := new_bucket_page.Insert p.cmp key value
  let st := setHPage st new_bucket_page_id (.bucket new_bucket_page)
  if ok then
    let d := asDirectory (getHPage st dir_pid)
    let d := d.SetBucketPageId bucket_idx new_bucket_page_id
    let d := d.SetLocalDepth bucket_idx 0
    (setHPage st dir_pid (.directory d), true)
  else (st, false)

/-- `InsertToNewDirectory`: allocate and initialize a directory page, try
`InsertToNewBucket` at slot 0, and on success record the directory page id
in the header. -/
def InsertToNewDirectory (p : HTParams K V) (st : HTState K V)
    (directory_idx : Nat) (key : K) (value : V) : HTState K V × Bool :=
  let (st, new_directory_page_id) := htNewPage st
  let st := setHPage st new_directory_page_id
    (.directory (DirectoryPage.Init p.directory_max_depth))
  let (st, ok) := InsertToNewBucket p st new_directory_page_id 0 key value
  if ok then
    let h := asHeader (getHPage st st.header_page_id)
    let h := h.SetDirectoryPageId directory_idx new_directory_page_id
    (setHPage st st.header_page_id (.header h), true)
  else (st, false)

set_option linter.unusedVariables false in
/-- `UpdateDirectoryMapping`: point directory slot `new_bucket_idx` at the
new bucket page and store the new local depth there (the mask parameter is
unused, as in the source). -/
def UpdateDirectoryMapping (d : DirectoryPage) (new_bucket_idx : Nat)
    (new_bucket_page_id : Int) (new_local_depth : Nat)
    (local_depth_mask : Nat) : DirectoryPage :=
  (d.SetBucketPageId new_bucket_idx new_bucket_page_id).SetLocalDepth
    new_bucket_idx new_local_depth

/-- The loop of `MigrateEntries`: visit index `i` of the old bucket while
`i < tmp_size`; an entry routed to the new bucket is removed from the old
bucket (swap-with-last) and inserted into the new one, and `tmp_size` is
decremented; `i` is incremented every iteration. The structural recursion
runs on `fuel`, an upper bound on the remaining iteration count
`tmp_size - i` (each iteration lowers `tmp_size - i` by at least one, so
with `fuel = tmp_size - i` at entry the guard `i < tmp_size` always fails
no later than the fuel does). -/
def migrateLoop (hash : K → Nat) (cmp : K → K → Int)
    (new_bucket_idx local_depth_mask : Nat) :
    Nat → Nat → Nat → BucketPage K V → BucketPage K V →
    BucketPage K V × BucketPage K V
  | 0, _, _, old_bucket, new_bucket => (old_bucket, new_bucket)
  | fuel + 1, i, tmp_size, old_bucket, new_bucket =>
    if i < tmp_size then
      let i_key := old_bucket.KeyAt i
      if new_bucket_idx ≠ (hash i_key &&& local_depth_mask) then
        migrateLoop hash cmp new_bucket_idx local_depth_mask fuel (i + 1) tmp_size
          old_bucket new_bucket
      else
        let i_value := old_bucket.ValueAt i
        let old_bucket := (old_bucket.Remove cmp i_key).1
        let new_bucket := (new_bucket.Insert cmp i_key i_value).1
        migrateLoop hash cmp new_bucket_idx local_depth_mask fuel (i + 1)
          (tmp_size - 1) old_bucket new_bucket
    else (old_bucket, new_bucket)

/-- `MigrateEntries` on a pair of bucket pages: the loop starts at
`i = 0` with `tmp_size = old_bucket->Size()`. -/
def MigrateEntries (hash : K → Nat) (cmp : K → K → Int)
    (old_bucket new_bucket : BucketPage K V)
    (new_bucket_idx local_depth_mask : Nat) : BucketPage K V × BucketPage K V :=
  migrateLoop hash cmp new_bucket_idx local_depth_mask old_bucket.size 0
    old_bucket.size old_bucket new_bucket

/-- `Insert`: route to the bucket; insert directly when it has room;
otherwise allocate a split image, run the depth bookkeeping (expansion
when global depth equals local depth), migrate entries and place the
incoming pair by `Hash(key) & new_local_depth_mask`. The boolean results
of the bucket-page inserts are discarded, as in the source. -/
def Insert (p : HTParams K V) (st : HTState K V) (key : K) (value : V) :
    HTState K V × Bool :=
  let hash_key := Hash p key
  let header_page := asHeader (getHPage st st.header_page_id)
  let directory_index := header_page.HashToDirectoryIndex hash_key
  let directory_page_id := header_page.GetDirectoryPageId directory_index
  if directory_page_id = -1 then
    InsertToNewDirectory p st directory_index key value
  else
    let directory_page := asDirectory (getHPage st directory_page_id)
    let bucket_index := directory_page.HashToBucketIndex hash_key
    let bucket_page_id := directory_page.GetBucketPageId bucket_index
    let bucket_page := asBucket (getHPage st bucket_page_id)
    if bucket_page.IsFull then
      let (st, new_bucket_page_id) := htNewPage st
      let new_bucket_page : BucketPage K V := BucketPage.Init p.bucket_max_size
      let new_bucket_index := directory_page.GetSplitImageIndex bucket_index
      let new_local_depth_mask := directory_page.GetLocalDepthMask bucket_index
      let finishSplit : DirectoryPage → HTState K V × Bool := fun directory_page =>
        let (old_b, new_b) := MigrateEntries (Hash p) p.cmp bucket_page new_bucket_page
          new_bucket_index new_local_depth_mask
        let (old_b, new_b) :=
          if new_bucket_index ≠ (Hash p key &&& new_local_depth_mask) then
            ((old_b.Insert p.cmp key value).1, new_b)
          else
            (old_b, (new_b.Insert p.cmp key value).1)
        let st := setHPage st directory_page_id (.directory directory_page)
        let st := setHPage st bucket_page_id (.bucket old_b)
        let st := setHPage st new_bucket_page_id (.bucket new_b)
        (st, true)
      if directory_page.GetGlobalDepth = directory_page.GetLocalDepth bucket_index then
        if directory_page.Size = directory_page.MaxSize then (st, false)
        else
          let directory_page := directory_page.IncrLocalDepth bucket_index
          let directory_page := directory_page.IncrGlobalDepth
          let new_local_depth := directory_page.GetLocalDepth bucket_index
          let directory_page := UpdateDirectoryMapping directory_page new_bucket_index
            new_bucket_page_id new_local_depth new_local_depth_mask
          finishSplit directory_page
      else if directory_page.GetGlobalDepth < directory_page.GetLocalDepth bucket_index then
        let directory_page := directory_page.IncrLocalDepth bucket_index
        let new_local_depth := directory_page.GetLocalDepth bucket_index
        let directory_page := UpdateDirectoryMapping directory_page new_bucket_index
          new_bucket_page_id new_local_depth new_local_depth_mask
        finishSplit directory_page
      else
        finishSplit directory_page
    else
      let (bucket_page, _ok) := bucket_page.Insert p.cmp key value
      let st := setHPage st bucket_page_id (.bucket bucket_page)
      (st, true)

/-- `Remove`: descend header -> directory -> bucket and remove from the
bucket page. -/
def Remove (p : HTParams K V) (st : HTState K V) (key : K) : HTState K V × Bool :=
  let hash_key := Hash p key
  let header_page := asHeader (getHPage st st.header_page_id)
  let directory_index := header_page.HashToDirectoryIndex hash_key
  let directory_page_id := header_page.GetDirectoryPageId directory_index
  if directory_page_id = -1 then (st, false)
  else
    let directory_page := asDirectory (getHPage st directory_page_id)
    let bucket_index := directory_page.HashToBucketIndex hash_key
    let bucket_page_id := directory_page.GetBucketPageId bucket_index
    let bucket_page := asBucket (getHPage st bucket_page_id)
    let (bucket_page, removed) := bucket_page.Remove p.cmp key
    let st := setHPage st bucket_page_id (.bucket bucket_page)
    (st, removed)

end DiskExtendibleHashTable

/-! ## Disk manager (storage/disk/disk_manager.cpp)

The backing file is a list of bytes; `GetFileSize` is its length. -/

def BUSTUB_PAGE_SIZE : Nat := 4096

/-- `DiskManager::ReadPage`: when the offset lies strictly past the end of
the file the read is logged as an error and the caller's buffer is left
untouched; otherwise read up to a page from the offset and zero-fill the
remainder of the buffer when the file ends early. -/
def DiskManager.ReadPage (file : List Nat) (page_id : Nat) (page_data : List Nat) :
    List Nat :=
  let offset := page_id * BUSTUB_PAGE_SIZE
  if offset > file.length then page_data
  else
    let readBytes := (file.drop offset).take BUSTUB_PAGE_SIZE
    let read_count := readBytes.length
    if read_count < BUSTUB_PAGE_SIZE then
      readBytes ++ List.replicate (BUSTUB_PAGE_SIZE - read_count) 0
    else readBytes

/-! ## Buffer pool manager (src/buffer/buffer_pool_manager.cpp)

Per-frame metadata of a `Page` (its data bytes are not modelled: no claim
under verification depends on them), the page table, the free list and the
replacer. Page ids are `Int` with `INVALID_PAGE_ID = -1`. -/

structure PageMeta where
  page_id : Int
  pin_count : Nat
  is_dirty : Bool
deriving DecidableEq

def defaultPageMeta : PageMeta :=
  { page_id := -1, pin_count := 0, is_dirty := false }

structure BPMState where
  pool_size : Nat
  pages : List PageMeta
  page_table : List (Int × Nat)
  free_list : List Nat
  replacer : LRUKReplacerState
  next_page_id : Int
deriving DecidableEq

def pageAt (st : BPMState) (frame_id : Nat) : PageMeta :=
  st.pages.getD frame_id defaultPageMeta

def tableLookup (t : List (Int × Nat)) (pid : Int) : Option Nat :=
  (t.find? (fun e => e.1 == pid)).map (fun e => e.2)

def tableInsert (t : List (Int × Nat)) (pid : Int) (f : Nat) : List (Int × Nat) :=
  if t.any (fun e => e.1 == pid) then
    t.map (fun e => if e.1 == pid then (pid, f) else e)
  else t ++ [(pid, f)]

def tableErase (t : List (Int × Nat)) (pid : Int) : List (Int × Nat) :=
  t.filter (fun e => !(e.1 == pid))

namespace BufferPoolManager

/-- The constructor: default-constructed frames, every frame on the free
list, an empty page table, a fresh replacer. -/
def initial (pool_size replacer_k : Nat) : BPMState :=
  { pool_size := pool_size,
    pages := List.replicate pool_size defaultPageMeta,
    page_table := [],
    free_list := List.range pool_size,
    replacer := LRUKReplacerState.new pool_size replacer_k,
    next_page_id := 0 }

/-- `AllocatePage`: `next_page_id_++`. -/
def AllocatePage (st : BPMState) : BPMState × Int :=
  ({ st with next_page_id := st.next_page_id + 1 }, st.next_page_id)

/-- `FlushPage`: the `INVALID_PAGE_ID` assertion is modelled as leaving
the state unchanged; a non-resident page fails; otherwise the frame is
written back (data bytes not modelled) and its dirty bit cleared. -/
def FlushPage (st : BPMState) (page_id : Int) : BPMState × Bool :=
  if page_id = -1 then (st, false)
  else
    match tableLookup st.page_table page_id with
    | none => (st, false)
    | some frame_id =>
      let m := { pageAt st frame_id with is_dirty := false }
      ({ st with pages := st.pages.set frame_id m }, true)

/-- The frame-acquisition prologue shared verbatim by `NewPage` and
`FetchPage`: pop the front of the free list when possible, else evict; a
dirty victim is flushed, and the victim's stale page-table entry erased. -/
def acquireFrame (st : BPMState) : BPMState × Option Nat :=
  match st.free_list with
  | frame_id :: rest => ({ st with free_list := rest }, some frame_id)
  | [] =>
    match st.replacer.Evict with
    | (some frame_id, r) =>
      let st := { st with replacer := r }
      let old_page := pageAt st frame_id
      let st := if old_page.is_dirty then (FlushPage st old_page.page_id).1 else st
      ({ st with page_table := tableErase st.page_table old_page.page_id },
       some frame_id)
    | (none, _) => (st, none)

/-- `NewPage`: acquire a frame, allocate a fresh page id, record the
access and pin, map the id to the frame and reset the frame's metadata. -/
def NewPage (st : BPMState) : BPMState × Option Int :=
  match acquireFrame st with
  | (st, none) => (st, none)
  | (st, some frame_id) =>
    let (st, new_page_id) := AllocatePage st
    let st := { st with replacer :=
      (st.replacer.RecordAccess frame_id).SetEvictable frame_id false }
    let st := { st with page_table := tableInsert st.page_table new_page_id frame_id }
    let m : PageMeta := { page_id := new_page_id, pin_count := 1, is_dirty := false }
    let st := { st with pages := st.pages.set frame_id m }
    (st, some new_page_id)

/-- `FetchPage`: a resident page gets its pin count incremented and its
dirty bit set to true (as in the source); a miss acquires a frame, reads
the page from disk (bytes not modelled) and installs it with pin count 1
and a clear dirty bit. -/
def FetchPage (st : BPMState) (page_id : Int) : BPMState × Bool :=
  match tableLookup st.page_table page_id with
  | some frame_id =>
    let m := pageAt st frame_id
    let m := { m with pin_count := m.pin_count + 1, is_dirty := true }
    let st := { st with pages := st.pages.set frame_id m }
    let st := { st with replacer :=
      (st.replacer.RecordAccess frame_id).SetEvictable frame_id false }
    (st, true)
  | none =>
    match acquireFrame st with
    | (st, none) => (st, false)
    | (st, some frame_id) =>
      let st := { st with replacer :=
        (st.replacer.RecordAccess frame_id).SetEvictable frame_id false }
      let st := { st with page_table := tableInsert st.page_table page_id frame_id }
      let m : PageMeta := { page_id := page_id, pin_count := 1, is_dirty := false }
      let st := { st with pages := st.pages.set frame_id m }
      (st, true)

/-- `UnpinPage`: fails when the page is not resident or its pin count is
already 0; otherwise decrements the pin count, updates evictability, and
assigns the `is_dirty` argument to the frame's dirty bit (a plain
assignment in the source, not an OR). -/
def UnpinPage (st : BPMState) (page_id : Int) (is_dirty : Bool) : BPMState × Bool :=
  match tableLookup st.page_table page_id with
  | none => (st, false)
  | some frame_id =>
    let m := pageAt st frame_id
    if m.pin_count = 0 then (st, false)
    else
      let m := { m with pin_count := m.pin_count - 1 }
      let st := { st with pages := st.pages.set frame_id m }
      let st := { st with replacer :=
        st.replacer.SetEvictable frame_id (decide (m.pin_count = 0)) }
      let st := { st with pages := st.pages.set frame_id { m with is_dirty := is_dirty } }
      (st, true)

/-- `DeletePage`: a non-resident page succeeds trivially; a pinned page
fails; otherwise flush-if-dirty, drop the page-table entry (keyed by the
frame's stored page id), remove the frame from the replacer and push it
onto the free list. -/
def DeletePage (st : BPMState) (page_id : Int) : BPMState × Bool :=
  match tableLookup st.page_table page_id with
  | none => (st, true)
  | some frame_id =>
    let m := pageAt st frame_id
    if 0 < m.pin_count then (st, false)
    else
      let st := if m.is_dirty then (FlushPage st page_id).1 else st
      let t := tableErase st.page_table (pageAt st frame_id).page_id
      let st := { st with page_table := t }
      let st := { st with replacer := st.replacer.Remove frame_id }
      let st := { st with free_list := st.free_list ++ [frame_id] }
      (st, true)

end BufferPoolManager

/-- The buffer pool operations of claim C9. -/
inductive BPMOp where
  | newPage : BPMOp
  | fetchPage (page_id : Int) : BPMOp
  | unpinPage (page_id : Int) (is_dirty : Bool) : BPMOp
  | flushPage (page_id : Int) : BPMOp
  | deletePage (page_id : Int) : BPMOp
deriving DecidableEq

def applyOp (st : BPMState) : BPMOp → BPMState
  | .newPage => (BufferPoolManager.NewPage st).1
  | .fetchPage pid => (BufferPoolManager.FetchPage st pid).1
  | .unpinPage pid d => (BufferPoolManager.UnpinPage st pid d).1
  | .flushPage pid => (BufferPoolManager.FlushPage st pid).1
  | .deletePage pid => (BufferPoolManager.DeletePage st pid).1

def run (ops : List BPMOp) (st : BPMState) : BPMState :=
  ops.foldl applyOp st

/-- Well-formed traces: every `fetch_page` argument is a page id the
allocator has already handed out (`0 ≤ pid < next_page_id` at the time of
the call); the other operations are unrestricted. -/
def wfTrace (st : BPMState) : List BPMOp → Bool
  | [] => true
  | op :: rest =>
    (match op with
     | .fetchPage pid => decide (0 ≤ pid) && decide (pid < st.next_page_id)
     | _ => true) && wfTrace (applyOp st op) rest

/-- A frame currently holding a resident page. -/
def Resident (st : BPMState) (f : Nat) : Prop :=
  ∃ p, (p, f) ∈ st.page_table

/-- The property of claim C9: the free list and the resident frames are
disjoint and together cover exactly the interval from 0 to the pool
size. -/
def Partition (st : BPMState) : Prop :=
  (∀ f, f ∈ st.free_list → ¬ Resident st f) ∧
  (∀ f, f < st.pool_size ↔ (f ∈ st.free_list ∨ Resident st f))

/-- The full inductive invariant of the buffer pool manager used to prove
claim C9: the free list is duplicate-free and in range; the page table is
a functional, value-injective relation whose frames are in range, disjoint
from the free list, and together with it covering the pool; each table
entry agrees with the page metadata stored in its frame; table keys are
exactly page ids the allocator has already handed out; and every frame
known to the replacer is resident or free. -/
structure Inv (st : BPMState) : Prop where
  free_nodup : st.free_list.Nodup
  free_lt : ∀ f, f ∈ st.free_list → f < st.pool_size
  res_lt : ∀ p f, (p, f) ∈ st.page_table → f < st.pool_size
  keys_fun : ∀ p f g, (p, f) ∈ st.page_table → (p, g) ∈ st.page_table → f = g
  vals_inj : ∀ p q f, (p, f) ∈ st.page_table → (q, f) ∈ st.page_table → p = q
  disj : ∀ p f, (p, f) ∈ st.page_table → f ∉ st.free_list
  cover : ∀ f, f < st.pool_size → f ∈ st.free_list ∨ ∃ p, (p, f) ∈ st.page_table
  meta_pid : ∀ p f, (p, f) ∈ st.page_table → (pageAt st f).page_id = p
  keys_lt : ∀ p f, (p, f) ∈ st.page_table → 0 ≤ p ∧ p < st.next_page_id
  store_cov : ∀ fr x, (fr, x) ∈ st.replacer.node_store →
    (∃ p, (p, fr) ∈ st.page_table) ∨ fr ∈ st.free_list
  pages_len : st.pages.length = st.pool_size
  next_nonneg : 0 ≤ st.next_page_id

/-- What the frame-acquisition prologue guarantees when it yields frame
`f`: everything except frames/table entries involving `f` is untouched
(page ids in particular), `f` is in range, `f` has been removed from both
the free list and the page table, and the replacer store only shrank. -/
structure AcqSpec (st st' : BPMState) (f : Nat) : Prop where
  pool : st'.pool_size = st.pool_size
  next : st'.next_page_id = st.next_page_id
  pages_pid : ∀ g, (pageAt st' g).page_id = (pageAt st g).page_id
  pages_len : st'.pages.length = st.pages.length
  f_lt : f < st.pool_size
  free_char : ∀ g, g ∈ st'.free_list ↔ (g ∈ st.free_list ∧ g ≠ f)
  table_char : ∀ p g, (p, g) ∈ st'.page_table ↔ ((p, g) ∈ st.page_table ∧ g ≠ f)
  free_nodup : st'.free_list.Nodup
  store_sub : ∀ e, e ∈ st'.replacer.node_store → e ∈ st.replacer.node_store

/-! ## Concrete instances used by the theorems

The hash-table claims are settled on the `int, int, IntComparator`
template instantiation. The hash function is a constructor parameter of
the table (`HashFunction<K>`); the instances below use the identity
function on non-negative ints, `header_max_depth = 0`,
`directory_max_depth = 3` and `bucket_max_size = 2`. -/

/-- `IntComparator`: negative / zero / positive for less / equal /
greater. -/
def intCmp (a b : Int) : Int :=
  if a < b then -1 else if b < a then 1 else 0

def exParams : HTParams Int Int :=
  { hash_fn := Int.toNat, cmp := intCmp, header_max_depth := 0,
    directory_max_depth := 3, bucket_max_size := 2 }

def exDir (st : HTState Int Int) (pid : Int) : DirectoryPage :=
  asDirectory (getHPage st pid)

def exBucket (st : HTState Int Int) (pid : Int) : BucketPage Int Int :=
  asBucket (getHPage st pid)

/-- The table after inserting keys 2 and 6 (both land in the single
initial bucket, which is now full). -/
def exHT2 : HTState Int Int :=
  (DiskExtendibleHashTable.Insert exParams
    (DiskExtendibleHashTable.Insert exParams
      (DiskExtendibleHashTable.new exParams) 2 102).1 6 106).1

/-- The table after additionally inserting key 0, which triggers the
first bucket split. -/
def exHT3 : HTState Int Int :=
  (DiskExtendibleHashTable.Insert exParams exHT2 0 100).1

/-- The table after further inserting keys 1, 3 and 5: global depth 2,
directory slot 0 has local depth 1 (strictly below the global depth) and
its bucket (page 2, holding keys 2 and 6) is full. -/
def exHT6 : HTState Int Int :=
  (DiskExtendibleHashTable.Insert exParams
    (DiskExtendibleHashTable.Insert exParams
      (DiskExtendibleHashTable.Insert exParams exHT3 1 101).1 3 103).1 5 105).1

/-- `exHT6` after inserting key 4, which routes to the full bucket of
directory slot 0 and exercises the split path with local depth strictly
below global depth. -/
def exHT7 : HTState Int Int :=
  (DiskExtendibleHashTable.Insert exParams exHT6 4 104).1

/-- A replacer with k = 1 holding exactly one evictable frame, whose
single recorded access carries the replacer's current timestamp: built by
`RecordAccess(0)` then `SetEvictable(0, true)` from a fresh replacer. -/
def exReplacerK1 : LRUKReplacerState :=
  ((LRUKReplacerState.new 3 1).RecordAccess 0).SetEvictable 0 true

/-- Two frames with two recorded accesses each under k = 2: frame 0 with
history timestamps 2, 1 and frame 1 with history 4, 3, both evictable,
current timestamp 4. -/
def exReplacerK2 : LRUKReplacerState :=
  { node_store :=
      [(0, { history := [2, 1], k := 2, is_evictable := true }),
       (1, { history := [4, 3], k := 2, is_evictable := true })],
    current_timestamp := 4, replacer_size := 4, evictable_size := 2, k := 2 }

/-- A full bucket (capacity 2) holding keys 1 and 3; both keys satisfy
`hash & 1 = 1`. -/
def exOldBucket : BucketPage Int Int :=
  { array := [(1, 10), (3, 30)], size := 2, max_size := 2 }

/-- The result of migrating `exOldBucket` into a fresh bucket with
`new_bucket_idx = 1` and `local_depth_mask = 1`. -/
def exMigrated : BucketPage Int Int × BucketPage Int Int :=
  DiskExtendibleHashTable.MigrateEntries (DiskExtendibleHashTable.Hash exParams)
    intCmp exOldBucket (BucketPage.Init 2) 1 1

/-- The table holding the single pair (1, 10) in a non-full bucket
(page 2, capacity 2). -/
def exDup1 : HTState Int Int :=
  (DiskExtendibleHashTable.Insert exParams (DiskExtendibleHashTable.new exParams) 1 10).1

/-- The live keys of a bucket page. -/
def liveKeys (b : BucketPage Int Int) : List Int :=
  (b.array.take b.size).map (fun e => e.1)

/-- Candidate (d1, e1) is at least as good as candidate (d2, e2) for the
eviction loop: strictly larger k-distance (in the ordinary numeric order
on `size_t` values, under which the finite `INF` also falls), or equal
k-distance and an oldest timestamp that is at most the other's. -/
def Better (d1 : Nat) (e1 : Nat) (d2 : Nat) (e2 : Nat) : Prop :=
  d2 < d1 ∨ (d1 = d2 ∧ e1 ≤ e2)

/-! ## Claim theorems -/

theorem Better.rfl {d e : Nat} : Better d e d e :=
  Or.inr ⟨Eq.refl d, Nat.le_refl e⟩

theorem Better.trans {d1 d2 d3 e1 e2 e3 : Nat}
    (h1 : Better d1 e1 d2 e2) (h2 : Better d2 e2 d3 e3) : Better d1 e1 d3 e3 := by
  rcases h1 with h1 | ⟨h1, h1e⟩
  · rcases h2 with h2 | ⟨h2, h2e⟩
    · exact Or.inl (by omega)
    · exact Or.inl (by omega)
  · rcases h2 with h2 | ⟨h2, h2e⟩
    · exact Or.inl (by omega)
    · exact Or.inr ⟨by omega, by omega⟩

theorem Better.of_lt {d1 d2 e1 e2 : Nat} (h : d2 < d1) :
    Better d1 e1 d2 e2 :=
  Or.inl h

/-- The eviction loop starting from a candidate that is a real evictable
node with strictly positive k-distance ends at an evictable node at least
as good as the start candidate and as every evictable node of the
remaining list. -/
theorem evictLoop_good (cur : Nat) :
    ∀ (l : List (Nat × LRUKNode)) (acc : EvictAcc) (f : Nat) (n : LRUKNode),
    acc.evict_id = Int.ofNat f →
    acc.mx = n.GetKDistance cur →
    acc.early = n.GetEarlyTimestamp →
    n.is_evictable = true →
    0 < acc.mx →
    ∃ f' n',
      (evictLoop cur l acc).evict_id = Int.ofNat f' ∧
      (evictLoop cur l acc).mx = n'.GetKDistance cur ∧
      (evictLoop cur l acc).early = n'.GetEarlyTimestamp ∧
      n'.is_evictable = true ∧
      ((f', n') ∈ l ∨ (f' = f ∧ n' = n)) ∧
      Better (n'.GetKDistance cur) n'.GetEarlyTimestamp
        (n.GetKDistance cur) n.GetEarlyTimestamp ∧
      ∀ g m, (g, m) ∈ l → m.is_evictable = true →
        Better (n'.GetKDistance cur) n'.GetEarlyTimestamp
          (m.GetKDistance cur) m.GetEarlyTimestamp := by
  intro l
  induction l with
  | nil =>
    intro acc f n hid hmx he hev hpos
    exact ⟨f, n, hid, hmx, he, hev, Or.inr ⟨Eq.refl f, Eq.refl n⟩, Better.rfl,
      fun g m hg => absurd hg (List.not_mem_nil _)⟩
  | cons hd t ih =>
    intro acc f n hid hmx he hev hpos
    obtain ⟨g₀, m₀⟩ := hd
    by_cases hm : m₀.is_evictable = true
    · rw [show evictLoop cur ((g₀, m₀) :: t) acc =
          (if m₀.GetKDistance cur > acc.mx then
            evictLoop cur t ⟨m₀.GetKDistance cur, m₀.GetEarlyTimestamp, Int.ofNat g₀⟩
          else if m₀.GetKDistance cur = acc.mx then
            (if acc.early > m₀.GetEarlyTimestamp then
              evictLoop cur t ⟨acc.mx, m₀.GetEarlyTimestamp, Int.ofNat g₀⟩
            else evictLoop cur t acc)
          else evictLoop cur t acc) from by
        simp [evictLoop, hm]]
      by_cases hlt : m₀.GetKDistance cur > acc.mx
      · rw [if_pos hlt]
        obtain ⟨f', n', h1, h2, h3, h4, h5, h6, h7⟩ :=
          ih ⟨m₀.GetKDistance cur, m₀.GetEarlyTimestamp, Int.ofNat g₀⟩ g₀ m₀
            (Eq.refl _) (Eq.refl _) (Eq.refl _) hm
            (show 0 < m₀.GetKDistance cur by omega)
        have hbn : Better (m₀.GetKDistance cur) m₀.GetEarlyTimestamp
            (n.GetKDistance cur) n.GetEarlyTimestamp := Better.of_lt (by omega)
        refine ⟨f', n', h1, h2, h3, h4, ?_, h6.trans hbn, ?_⟩
        · rcases h5 with h5 | ⟨h5f, h5n⟩
          · exact Or.inl (List.mem_cons_of_mem _ h5)
          · exact Or.inl (h5f ▸ h5n ▸ List.mem_cons_self _ _)
        · intro g m hg hmev
          rcases List.mem_cons.mp hg with hg | hg
          · obtain ⟨hg1, hg2⟩ := Prod.mk.injEq .. ▸ hg
            exact hg2 ▸ h6
          · exact h7 g m hg hmev
      · rw [if_neg hlt]
        by_cases heq : m₀.GetKDistance cur = acc.mx
        · rw [if_pos heq]
          by_cases hgt : acc.early > m₀.GetEarlyTimestamp
          · rw [if_pos hgt]
            obtain ⟨f', n', h1, h2, h3, h4, h5, h6, h7⟩ :=
              ih ⟨acc.mx, m₀.GetEarlyTimestamp, Int.ofNat g₀⟩ g₀ m₀
                (Eq.refl _) heq.symm (Eq.refl _) hm hpos
            have hbn : Better (m₀.GetKDistance cur) m₀.GetEarlyTimestamp
                (n.GetKDistance cur) n.GetEarlyTimestamp :=
              Or.inr ⟨heq.trans hmx, Nat.le_of_lt (he ▸ hgt)⟩
            refine ⟨f', n', h1, h2, h3, h4, ?_, h6.trans hbn, ?_⟩
            · rcases h5 with h5 | ⟨h5f, h5n⟩
              · exact Or.inl (List.mem_cons_of_mem _ h5)
              · exact Or.inl (h5f ▸ h5n ▸ List.mem_cons_self _ _)
            · intro g m hg hmev
              rcases List.mem_cons.mp hg with hg | hg
              · obtain ⟨hg1, hg2⟩ := Prod.mk.injEq .. ▸ hg
                exact hg2 ▸ h6
              · exact h7 g m hg hmev
          · rw [if_neg hgt]
            obtain ⟨f', n', h1, h2, h3, h4, h5, h6, h7⟩ :=
              ih acc f n hid hmx he hev hpos
            have hbn : Better (n.GetKDistance cur) n.GetEarlyTimestamp
                (m₀.GetKDistance cur) m₀.GetEarlyTimestamp :=
              Or.inr ⟨hmx.symm.trans heq.symm, he ▸ Nat.le_of_not_lt hgt⟩
            refine ⟨f', n', h1, h2, h3, h4, ?_, h6, ?_⟩
            · rcases h5 with h5 | h5
              · exact Or.inl (List.mem_cons_of_mem _ h5)
              · exact Or.inr h5
            · intro g m hg hmev
              rcases List.mem_cons.mp hg with hg | hg
              · obtain ⟨hg1, hg2⟩ := Prod.mk.injEq .. ▸ hg
                exact hg2 ▸ h6.trans hbn
              · exact h7 g m hg hmev
        · rw [if_neg heq]
          have hml : m₀.GetKDistance cur < acc.mx := by omega
          obtain ⟨f', n', h1, h2, h3, h4, h5, h6, h7⟩ :=
            ih acc f n hid hmx he hev hpos
          have hbn : Better (n.GetKDistance cur) n.GetEarlyTimestamp
              (m₀.GetKDistance cur) m₀.GetEarlyTimestamp :=
            Better.of_lt (by omega)
          refine ⟨f', n', h1, h2, h3, h4, ?_, h6, ?_⟩
          · rcases h5 with h5 | h5
            · exact Or.inl (List.mem_cons_of_mem _ h5)
            · exact Or.inr h5
          · intro g m hg hmev
            rcases List.mem_cons.mp hg with hg | hg
            · obtain ⟨hg1, hg2⟩ := Prod.mk.injEq .. ▸ hg
              exact hg2 ▸ h6.trans hbn
            · exact h7 g m hg hmev
    · rw [show evictLoop cur ((g₀, m₀) :: t) acc = evictLoop cur t acc from by
        simp [evictLoop, hm]]
      obtain ⟨f', n', h1, h2, h3, h4, h5, h6, h7⟩ := ih acc f n hid hmx he hev hpos
      refine ⟨f', n', h1, h2, h3, h4, ?_, h6, ?_⟩
      · rcases h5 with h5 | h5
        · exact Or.inl (List.mem_cons_of_mem _ h5)
        · exact Or.inr h5
      · intro g m hg hmev
        rcases List.mem_cons.mp hg with hg | hg
        · obtain ⟨hg1, hg2⟩ := Prod.mk.injEq .. ▸ hg
          exact absurd (hg2 ▸ hmev) (by exact fun h => hm h)
        · exact h7 g m hg hmev

/-- Starting the eviction loop with the initial accumulator (running
maximum 0, any tie-break contents, candidate -1), if some evictable node
of the list has strictly positive k-distance then the loop ends at an
evictable node of the list with strictly positive k-distance that is at
least as good as every evictable node of the list. -/
theorem evictLoop_start (cur : Nat) :
    ∀ (l : List (Nat × LRUKNode)) (acc : EvictAcc),
    acc.mx = 0 →
    (∃ g m, (g, m) ∈ l ∧ m.is_evictable = true ∧
      0 < m.GetKDistance cur) →
    ∃ f' n',
      (evictLoop cur l acc).evict_id = Int.ofNat f' ∧
      n'.is_evictable = true ∧
      (f', n') ∈ l ∧
      0 < n'.GetKDistance cur ∧
      ∀ g m, (g, m) ∈ l → m.is_evictable = true →
        Better (n'.GetKDistance cur) n'.GetEarlyTimestamp
          (m.GetKDistance cur) m.GetEarlyTimestamp := by
  intro l
  induction l with
  | nil =>
    intro acc hacc hex
    obtain ⟨g, m, hg, -, -⟩ := hex
    exact absurd hg (List.not_mem_nil _)
  | cons hd t ih =>
    intro acc hacc hex
    obtain ⟨g₀, m₀⟩ := hd
    by_cases hm : m₀.is_evictable = true
    · rw [show evictLoop cur ((g₀, m₀) :: t) acc =
          (if m₀.GetKDistance cur > acc.mx then
            evictLoop cur t ⟨m₀.GetKDistance cur, m₀.GetEarlyTimestamp, Int.ofNat g₀⟩
          else if m₀.GetKDistance cur = acc.mx then
            (if acc.early > m₀.GetEarlyTimestamp then
              evictLoop cur t ⟨acc.mx, m₀.GetEarlyTimestamp, Int.ofNat g₀⟩
            else evictLoop cur t acc)
          else evictLoop cur t acc) from by
        simp [evictLoop, hm]]
      by_cases hlt : m₀.GetKDistance cur > acc.mx
      · rw [if_pos hlt]
        have hpos0 : 0 < m₀.GetKDistance cur := by omega
        obtain ⟨f', n', h1, h2, h3, h4, h5, h6, h7⟩ :=
          evictLoop_good cur t ⟨m₀.GetKDistance cur, m₀.GetEarlyTimestamp, Int.ofNat g₀⟩
            g₀ m₀ (Eq.refl _) (Eq.refl _) (Eq.refl _) hm hpos0
        have hpos' : 0 < n'.GetKDistance cur := by
          rcases h6 with h6 | ⟨h6, -⟩
          · omega
          · omega
        refine ⟨f', n', h1, h4, ?_, hpos', ?_⟩
        · rcases h5 with h5 | ⟨h5f, h5n⟩
          · exact List.mem_cons_of_mem _ h5
          · exact h5f ▸ h5n ▸ List.mem_cons_self _ _
        · intro g m hg hmev
          rcases List.mem_cons.mp hg with hg | hg
          · obtain ⟨hg1, hg2⟩ := Prod.mk.injEq .. ▸ hg
            exact hg2 ▸ h6
          · exact h7 g m hg hmev
      · rw [if_neg hlt]
        have hm0 : m₀.GetKDistance cur = 0 := by omega
        have hext : ∃ g m, (g, m) ∈ t ∧ m.is_evictable = true ∧
            0 < m.GetKDistance cur := by
          obtain ⟨g, m, hg, hmev, hmp⟩ := hex
          rcases List.mem_cons.mp hg with hg | hg
          · obtain ⟨hg1, hg2⟩ := Prod.mk.injEq .. ▸ hg
            rw [hg2, hm0] at hmp
            exact absurd hmp (lt_irrefl 0)
          · exact ⟨g, m, hg, hmev, hmp⟩
        have heq : m₀.GetKDistance cur = acc.mx := by omega
        rw [if_pos heq]
        have hres : ∀ acc' : EvictAcc, acc'.mx = 0 →
            ∃ f' n',
              (evictLoop cur t acc').evict_id = Int.ofNat f' ∧
              n'.is_evictable = true ∧ (f', n') ∈ t ∧
              0 < n'.GetKDistance cur ∧
              ∀ g m, (g, m) ∈ t → m.is_evictable = true →
                Better (n'.GetKDistance cur) n'.GetEarlyTimestamp
                  (m.GetKDistance cur) m.GetEarlyTimestamp :=
          fun acc' hacc' => ih acc' hacc' hext
        by_cases hgt : acc.early > m₀.GetEarlyTimestamp
        · rw [if_pos hgt]
          obtain ⟨f', n', h1, h2, h3, h4, h5⟩ :=
            hres ⟨acc.mx, m₀.GetEarlyTimestamp, Int.ofNat g₀⟩ hacc
          refine ⟨f', n', h1, h2, List.mem_cons_of_mem _ h3, h4, ?_⟩
          intro g m hg hmev
          rcases List.mem_cons.mp hg with hg | hg
          · obtain ⟨hg1, hg2⟩ := Prod.mk.injEq .. ▸ hg
            exact Better.of_lt (by rw [hg2, hm0]; exact h4)
          · exact h5 g m hg hmev
        · rw [if_neg hgt]
          obtain ⟨f', n', h1, h2, h3, h4, h5⟩ := hres acc hacc
          refine ⟨f', n', h1, h2, List.mem_cons_of_mem _ h3, h4, ?_⟩
          intro g m hg hmev
          rcases List.mem_cons.mp hg with hg | hg
          · obtain ⟨hg1, hg2⟩ := Prod.mk.injEq .. ▸ hg
            exact Better.of_lt (by rw [hg2, hm0]; exact h4)
          · exact h5 g m hg hmev
    · rw [show evictLoop cur ((g₀, m₀) :: t) acc = evictLoop cur t acc from by
        simp [evictLoop, hm]]
      have hext : ∃ g m, (g, m) ∈ t ∧ m.is_evictable = true ∧
          0 < m.GetKDistance cur := by
        obtain ⟨g, m, hg, hmev, hmp⟩ := hex
        rcases List.mem_cons.mp hg with hg | hg
        · obtain ⟨hg1, hg2⟩ := Prod.mk.injEq .. ▸ hg
          exact absurd (hg2 ▸ hmev) (by exact fun h => hm h)
        · exact ⟨g, m, hg, hmev, hmp⟩
      obtain ⟨f', n', h1, h2, h3, h4, h5⟩ := ih acc hacc hext
      refine ⟨f', n', h1, h2, List.mem_cons_of_mem _ h3, h4, ?_⟩
      intro g m hg hmev
      rcases List.mem_cons.mp hg with hg | hg
      · obtain ⟨hg1, hg2⟩ := Prod.mk.injEq .. ▸ hg
        exact absurd (hg2 ▸ hmev) (by exact fun h => hm h)
      · exact h5 g m hg hmev

/-- Claim C6 (amended): for every replacer state in which at least one
evictable frame has strictly positive backward-k-distance (and whose
evictable count is consistent with the store), `Evict` succeeds — for any
contents `einit` of the loop's uninitialized tie-break variable — and
selects an evictable frame whose k-distance is maximal, with ties broken
by the smallest oldest recorded timestamp; the selected frame's node is
removed from the store and the evictable count decreases by one. (The
unamended claim fails when every evictable frame has k-distance 0:
see the separate theorem for claim C10.) -/
theorem c6_evict_selects_max_k_distance (s : LRUKReplacerState) (einit : Nat)
    (hpos : ∃ g m, (g, m) ∈ s.node_store ∧ m.is_evictable = true ∧
      0 < m.GetKDistance s.current_timestamp)
    (hcount : s.evictable_size =
      s.node_store.countP (fun e => e.2.is_evictable)) :
    ∃ f n, (s.EvictWith einit).1 = some f ∧ (f, n) ∈ s.node_store ∧
      n.is_evictable = true ∧
      (∀ g m, (g, m) ∈ s.node_store → m.is_evictable = true →
        m.GetKDistance s.current_timestamp <
          n.GetKDistance s.current_timestamp ∨
        (m.GetKDistance s.current_timestamp = n.GetKDistance s.current_timestamp ∧
          n.GetEarlyTimestamp ≤ m.GetEarlyTimestamp)) ∧
      lookupNode (s.EvictWith einit).2.node_store f = none ∧
      (s.EvictWith einit).2.evictable_size + 1 = s.evictable_size := by
  obtain ⟨f', n', h1, h2, h3, h4, h5⟩ :=
    evictLoop_start s.current_timestamp s.node_store ⟨0, einit, -1⟩
      (Eq.refl _) hpos
  have hne : ¬ ((evictLoop s.current_timestamp s.node_store
      ⟨0, einit, -1⟩).evict_id = -1) := by
    rw [h1, Int.ofNat_eq_coe]
    omega
  have htn : (evictLoop s.current_timestamp s.node_store
      ⟨0, einit, -1⟩).evict_id.toNat = f' := by
    rw [h1]
    exact Int.toNat_ofNat f'
  refine ⟨f', n', ?_, h3, h2, ?_, ?_, ?_⟩
  · simp only [LRUKReplacerState.EvictWith, if_neg hne, htn]
  · intro g m hg hmev
    rcases h5 g m hg hmev with hb | ⟨hb, hbe⟩
    · exact Or.inl hb
    · exact Or.inr ⟨hb.symm, hbe⟩
  · have hfn : ∀ (l : List (Nat × LRUKNode)),
        List.find? (fun e => e.1 == f') (l.filter (fun e => !(e.1 == f'))) = none := by
      intro l
      rw [List.find?_eq_none]
      intro e he
      simpa using (List.mem_filter.mp he).2
    simp only [LRUKReplacerState.EvictWith, if_neg hne, htn, lookupNode, eraseNode,
      hfn, Option.map_none']
  · have hcp : 0 < s.node_store.countP (fun e => e.2.is_evictable) := by
      rw [List.countP_pos_iff]
      exact ⟨(f', n'), h3, by simpa using h2⟩
    simp only [LRUKReplacerState.EvictWith, if_neg hne]
    show s.evictable_size - 1 + 1 = s.evictable_size
    omega

/-- Claim C6, counterexample to the claim as stated: `exReplacerK1` holds
exactly one evictable frame (frame 0, k = 1, single access at the current
timestamp, so backward-k-distance 0), yet `Evict` — as invoked by the
buffer pool manager — returns false instead of selecting and removing
that frame: the selection loop's strict comparison against the running
maximum 0 admits no candidate of distance 0. -/
theorem c6_counterexample_zero_distance :
    (0, { history := [1], k := 1, is_evictable := true }) ∈
      exReplacerK1.node_store ∧
    exReplacerK1.Size = 1 ∧
    (exReplacerK1.Evict).1 = none := by
  decide

theorem c6_witness :
    (∃ g m, (g, m) ∈ exReplacerK2.node_store ∧ m.is_evictable = true ∧
      0 < m.GetKDistance exReplacerK2.current_timestamp) ∧
    (exReplacerK2.evictable_size =
      exReplacerK2.node_store.countP (fun e => e.2.is_evictable)) ∧
    (∃ f n, (exReplacerK2.EvictWith 0).1 = some f ∧ (f, n) ∈ exReplacerK2.node_store ∧
      n.is_evictable = true ∧
      (∀ g m, (g, m) ∈ exReplacerK2.node_store → m.is_evictable = true →
        m.GetKDistance exReplacerK2.current_timestamp <
          n.GetKDistance exReplacerK2.current_timestamp ∨
        (m.GetKDistance exReplacerK2.current_timestamp =
          n.GetKDistance exReplacerK2.current_timestamp ∧
          n.GetEarlyTimestamp ≤ m.GetEarlyTimestamp)) ∧
      lookupNode (exReplacerK2.EvictWith 0).2.node_store f = none ∧
      (exReplacerK2.EvictWith 0).2.evictable_size + 1 =
        exReplacerK2.evictable_size) :=
  ⟨⟨0, { history := [2, 1], k := 2, is_evictable := true }, by decide, by decide,
    by decide⟩,
   by decide,
   c6_evict_selects_max_k_distance exReplacerK2 0
     ⟨0, { history := [2, 1], k := 2, is_evictable := true }, by decide, by decide,
      by decide⟩
     (by decide)⟩

/-- Claim C1, behavior of the code at the failing input: with
`header_max_depth = 0`, `directory_max_depth = 3`, `bucket_max_size = 2`
and the identity hash, inserting the distinct keys 2, 6, 0 makes every
`Insert` return true, yet `GetValue(0)` then returns false and appends
nothing (the third insert split the bucket, no entry migrated, and the
pair (0, 100) was dropped into the still-full bucket with the failure
ignored). No `Remove` was ever called. -/
theorem c1_insert_reports_success_but_pair_lost :
    (DiskExtendibleHashTable.Insert exParams
      (DiskExtendibleHashTable.new exParams) 2 102).2 = true ∧
    (DiskExtendibleHashTable.Insert exParams
      (DiskExtendibleHashTable.Insert exParams
        (DiskExtendibleHashTable.new exParams) 2 102).1 6 106).2 = true ∧
    (DiskExtendibleHashTable.Insert exParams exHT2 0 100).2 = true ∧
    DiskExtendibleHashTable.GetValue exParams exHT3 0 = (false, []) ∧
    DiskExtendibleHashTable.GetValue exParams exHT3 2 = (true, [102]) ∧
    DiskExtendibleHashTable.GetValue exParams exHT3 6 = (true, [106]) := by
  decide

/-- Claim C2, behavior of the code at the failing input: after `NewPage`
(page 0) and a `FetchPage(0)` hit, frame 0 is resident with pin count 2
and a set dirty bit; `UnpinPage(0, false)` then clears the dirty bit (the
source assigns `is_dirty` instead of OR-ing it). -/
theorem c2_unpin_false_clears_dirty_bit :
    pageAt (run [BPMOp.newPage, BPMOp.fetchPage 0]
        (BufferPoolManager.initial 2 2)) 0 =
      { page_id := 0, pin_count := 2, is_dirty := true } ∧
    (BufferPoolManager.UnpinPage
        (run [BPMOp.newPage, BPMOp.fetchPage 0] (BufferPoolManager.initial 2 2))
        0 false).2 = true ∧
    pageAt (BufferPoolManager.UnpinPage
        (run [BPMOp.newPage, BPMOp.fetchPage 0] (BufferPoolManager.initial 2 2))
        0 false).1 0 =
      { page_id := 0, pin_count := 1, is_dirty := false } := by
  decide

/-- Claim C3, behavior of the code at the failing input: migrating the
full bucket [(1,10), (3,30)] with `new_bucket_idx = 1` and
`local_depth_mask = 1` moves (1,10) but leaves key 3 in the old bucket,
although `hash(3) & 1 = 1 = new_bucket_idx` (the entry swapped into
position i is skipped when i is incremented). -/
theorem c3_migrate_skips_swapped_entry :
    liveKeys exMigrated.1 = [3] ∧
    (DiskExtendibleHashTable.Hash exParams 3 &&& 1) = 1 ∧
    liveKeys exMigrated.2 = [1] := by
  decide

/-- Claim C4, behavior of the code at the failing input: in `exHT6` the
directory (page 1) has global depth 2, slot 0 has local depth 1 and its
bucket (page 2) is full; key 4 routes to slot 0, and `Insert(4, 104)`
returns true but leaves the local depth of slot 0 at 1 and the global
depth at 2 — the local depth is not incremented (the split branch guards
on `global < local` instead of `local < global`, so neither branch
runs). -/
theorem c4_local_lt_global_split_keeps_depth :
    (exDir exHT6 1).GetGlobalDepth = 2 ∧
    (exDir exHT6 1).GetLocalDepth 0 = 1 ∧
    (exDir exHT6 1).HashToBucketIndex (DiskExtendibleHashTable.Hash exParams 4) = 0 ∧
    (exBucket exHT6 2).IsFull = true ∧
    (DiskExtendibleHashTable.Insert exParams exHT6 4 104).2 = true ∧
    (exDir exHT7 1).GetLocalDepth 0 = 1 ∧
    (exDir exHT7 1).GetGlobalDepth = 2 := by
  decide

/-- Claim C5, behavior of the code at the failing input: key 1 is present
in a non-full bucket (page 2, size 1 of capacity 2); `Insert(1, 20)`
leaves the bucket unchanged but returns true (the bucket page's false
result is discarded), while the claim requires false. -/
theorem c5_duplicate_insert_returns_true :
    DiskExtendibleHashTable.GetValue exParams exDup1 1 = (true, [10]) ∧
    (exBucket exDup1 2).size = 1 ∧
    (exBucket exDup1 2).IsFull = false ∧
    (DiskExtendibleHashTable.Insert exParams exDup1 1 20).2 = true ∧
    exBucket (DiskExtendibleHashTable.Insert exParams exDup1 1 20).1 2 =
      exBucket exDup1 2 := by
  decide

/-- Claim C8, behavior of the code at the failing input: in the reachable
table `exHT3` the directory (page 1) stores local depth 1 and bucket page
id 2 at index 0, and `GetLocalDepthMask(0)` returns
`(1 << 2) - 1 = 3` — computed from the bucket page id — instead of
`(1 << 1) - 1 = 1`. -/
theorem c8_mask_read_from_bucket_page_ids :
    (exDir exHT3 1).GetLocalDepth 0 = 1 ∧
    (exDir exHT3 1).GetBucketPageId 0 = 2 ∧
    (exDir exHT3 1).GetLocalDepthMask 0 = 3 ∧
    (1 <<< (exDir exHT3 1).GetLocalDepth 0) - 1 = 1 := by
  decide

/-- Claim C9, counterexample to the claim as stated: from a fresh pool of
2 frames, the operation sequence fetch_page(0) (a page id never handed
out by the allocator), then new_page — both legal members of the claim's
operation set — reaches a state in which frame 0 is neither on the free
list nor in the frame table (new_page allocated page id 0 again and its
table assignment overwrote the mapping of the fetched page, orphaning its
frame), so the union of the two sets is not all of [0, pool_size). -/
theorem c9_partition_violated_by_unallocated_fetch :
    ¬ Partition (run [BPMOp.fetchPage 0, BPMOp.newPage]
        (BufferPoolManager.initial 2 2)) := by
  intro h
  rcases (h.2 0).mp (by decide) with hf | ⟨p, hp⟩
  · exact absurd hf (by decide)
  · have ht : (run [BPMOp.fetchPage 0, BPMOp.newPage]
        (BufferPoolManager.initial 2 2)).page_table = [(0, 1)] := by decide
    rw [ht] at hp
    simp at hp

/-- Claim C10: `Evict` can fail although an evictable frame exists. In
`exReplacerK1` (k = 1, one evictable frame whose single access carries the
replacer's current timestamp, so its backward-k-distance is 0) the
selection loop never replaces the initial candidate: the strict
comparison rejects distance 0 against the running maximum 0, and on the
tie path the comparison against the loop's tie-break variable (left
uninitialized in the source; its arbitrary contents are the parameter
`einit`) also rejects whenever that value is at most the frame's
timestamp. `Evict` then returns false while `Size()` is 1. -/
theorem c10_evict_fails_with_evictable_frame (einit : Nat) (h : einit ≤ 1) :
    (exReplacerK1.EvictWith einit).1 = none ∧ exReplacerK1.Size = 1 := by
  interval_cases einit <;> exact (by decide)

theorem c10_witness :
    0 ≤ 1 ∧ ((exReplacerK1.EvictWith 0).1 = none ∧ exReplacerK1.Size = 1) :=
  ⟨by decide, c10_evict_fails_with_evictable_frame 0 (by decide)⟩

/-- Claim C7, counterexample to the claim as stated: reading page 1 of an
empty file (offset 4096, strictly past end-of-file) leaves the caller's
buffer untouched — here a buffer of all ones stays all ones — instead of
zero-filling it. -/
theorem c7_read_past_eof_keeps_buffer :
    DiskManager.ReadPage [] 1 (List.replicate BUSTUB_PAGE_SIZE 1) =
      List.replicate BUSTUB_PAGE_SIZE 1 ∧
    List.replicate BUSTUB_PAGE_SIZE 1 ≠ List.replicate BUSTUB_PAGE_SIZE 0 := by
  refine ⟨rfl, fun h => ?_⟩
  have h1 : (List.replicate BUSTUB_PAGE_SIZE 1).head? = some 1 := rfl
  have h2 : (List.replicate BUSTUB_PAGE_SIZE 0).head? = some 0 := rfl
  rw [h, h2] at h1
  simp at h1

/-- Claim C7 (amended): `read_page` always succeeds, and whenever the read
offset lies at or before the end of the file it fills the buffer with
exactly `page_size` bytes — the file's bytes at the offset, zero-filled
past the end of the file; when the offset lies strictly past the end of
the file the read is logged as an error and the caller's buffer is left
unmodified (still `page_size` bytes, but not zeroed). -/
theorem c7_readpage_zero_fill_amended (file page_data : List Nat) (page_id : Nat)
    (hbuf : page_data.length = BUSTUB_PAGE_SIZE) :
    (page_id * BUSTUB_PAGE_SIZE ≤ file.length →
      DiskManager.ReadPage file page_id page_data =
        (file.drop (page_id * BUSTUB_PAGE_SIZE)).take BUSTUB_PAGE_SIZE ++
          List.replicate (BUSTUB_PAGE_SIZE -
            ((file.drop (page_id * BUSTUB_PAGE_SIZE)).take BUSTUB_PAGE_SIZE).length) 0 ∧
      (DiskManager.ReadPage file page_id page_data).length = BUSTUB_PAGE_SIZE) ∧
    (file.length < page_id * BUSTUB_PAGE_SIZE →
      DiskManager.ReadPage file page_id page_data = page_data ∧
      (DiskManager.ReadPage file page_id page_data).length = BUSTUB_PAGE_SIZE) := by
  constructor
  · intro hle
    have hnlt : ¬ (page_id * BUSTUB_PAGE_SIZE > file.length) := by omega
    have hlen : ((file.drop (page_id * BUSTUB_PAGE_SIZE)).take BUSTUB_PAGE_SIZE).length ≤
        BUSTUB_PAGE_SIZE := by
      simp [List.length_take]
    by_cases hc :
        ((file.drop (page_id * BUSTUB_PAGE_SIZE)).take BUSTUB_PAGE_SIZE).length <
          BUSTUB_PAGE_SIZE
    · constructor
      · simp only [DiskManager.ReadPage, if_neg hnlt, if_pos hc]
      · simp only [DiskManager.ReadPage, if_neg hnlt, if_pos hc, List.length_append,
          List.length_replicate]
        omega
    · have heq : ((file.drop (page_id * BUSTUB_PAGE_SIZE)).take BUSTUB_PAGE_SIZE).length =
          BUSTUB_PAGE_SIZE := by omega
      constructor
      · simp only [DiskManager.ReadPage, if_neg hnlt, if_neg hc, heq, Nat.sub_self,
          List.replicate_zero, List.append_nil]
        rw [if_neg (by omega)]
      · simp only [DiskManager.ReadPage, if_neg hnlt, if_neg hc, heq]
        rw [if_neg (by omega)]
        exact heq
  · intro hlt
    have hgt : page_id * BUSTUB_PAGE_SIZE > file.length := by omega
    constructor
    · simp only [DiskManager.ReadPage, if_pos hgt]
    · simp only [DiskManager.ReadPage, if_pos hgt, hbuf]

theorem c7_witness :
    (List.replicate BUSTUB_PAGE_SIZE 7).length = BUSTUB_PAGE_SIZE ∧
    ((0 * BUSTUB_PAGE_SIZE ≤ (List.replicate 6000 5).length →
      DiskManager.ReadPage (List.replicate 6000 5) 0 (List.replicate BUSTUB_PAGE_SIZE 7) =
        ((List.replicate 6000 5).drop (0 * BUSTUB_PAGE_SIZE)).take BUSTUB_PAGE_SIZE ++
          List.replicate (BUSTUB_PAGE_SIZE -
            (((List.replicate 6000 5).drop (0 * BUSTUB_PAGE_SIZE)).take
              BUSTUB_PAGE_SIZE).length) 0 ∧
      (DiskManager.ReadPage (List.replicate 6000 5) 0
        (List.replicate BUSTUB_PAGE_SIZE 7)).length = BUSTUB_PAGE_SIZE) ∧
    ((List.replicate 6000 5).length < 0 * BUSTUB_PAGE_SIZE →
      DiskManager.ReadPage (List.replicate 6000 5) 0 (List.replicate BUSTUB_PAGE_SIZE 7) =
        List.replicate BUSTUB_PAGE_SIZE 7 ∧
      (DiskManager.ReadPage (List.replicate 6000 5) 0
        (List.replicate BUSTUB_PAGE_SIZE 7)).length = BUSTUB_PAGE_SIZE)) :=
  ⟨by simp,
   c7_readpage_zero_fill_amended (List.replicate 6000 5)
     (List.replicate BUSTUB_PAGE_SIZE 7) 0 (by simp)⟩

/-! ## Helper lemmas for the buffer pool invariant (claim C9) -/

theorem getD_set_self {α : Type} :
    ∀ (l : List α) (i : Nat) (x d : α), i < l.length → (l.set i x).getD i d = x
  | [], i, x, d, h => absurd h (by simp)
  | a :: t, 0, x, d, _ => rfl
  | a :: t, i + 1, x, d, h => by
    simp only [List.set, List.getD, List.getElem?_cons_succ]
    exact getD_set_self t i x d (by simpa using h)

theorem getD_set_ne {α : Type} :
    ∀ (l : List α) (i j : Nat) (x d : α), i ≠ j → (l.set i x).getD j d = l.getD j d
  | [], i, j, x, d, h => rfl
  | a :: t, 0, 0, x, d, h => absurd (Eq.refl 0) h
  | a :: t, 0, j + 1, x, d, h => rfl
  | a :: t, i + 1, 0, x, d, h => rfl
  | a :: t, i + 1, j + 1, x, d, h => by
    simp only [List.set, List.getD, List.getElem?_cons_succ]
    exact getD_set_ne t i j x d (fun hc => h (by omega))

theorem length_set {α : Type} (l : List α) (i : Nat) (x : α) :
    (l.set i x).length = l.length :=
  List.length_set l i x

theorem tableLookup_mem {t : List (Int × Nat)} {pid : Int} {f : Nat}
    (h : tableLookup t pid = some f) : (pid, f) ∈ t := by
  simp only [tableLookup, Option.map_eq_some'] at h
  obtain ⟨e, he, hef⟩ := h
  have hm := List.mem_of_find?_eq_some he
  have hp := List.find?_some he
  have : e.1 = pid := by simpa using hp
  have : e = (pid, f) := by
    cases e
    simp_all
  exact this ▸ hm

theorem tableLookup_none {t : List (Int × Nat)} {pid : Int}
    (h : tableLookup t pid = none) : ∀ f, (pid, f) ∉ t := by
  intro f hf
  simp only [tableLookup, Option.map_eq_none'] at h
  rw [List.find?_eq_none] at h
  exact absurd (by simp : ((pid, f).1 == pid) = true) (h (pid, f) hf)

theorem tableLookup_of_mem {t : List (Int × Nat)} {pid : Int} {f : Nat}
    (hfun : ∀ p g h', (p, g) ∈ t → (p, h') ∈ t → g = h')
    (hm : (pid, f) ∈ t) : tableLookup t pid = some f := by
  induction t with
  | nil => exact absurd hm (List.not_mem_nil _)
  | cons hd tl ih =>
    obtain ⟨p₀, f₀⟩ := hd
    by_cases hp : p₀ = pid
    · have hf : f₀ = f := by
        rcases List.mem_cons.mp hm with hm | hm
        · obtain ⟨h1, h2⟩ := Prod.mk.injEq .. ▸ hm
          exact h2.symm
        · exact hfun pid f₀ f (hp ▸ List.mem_cons_self _ _) (List.mem_cons_of_mem _ hm)
      simp [tableLookup, hp, hf]
    · have hm' : (pid, f) ∈ tl := by
        rcases List.mem_cons.mp hm with hm | hm
        · obtain ⟨h1, h2⟩ := Prod.mk.injEq .. ▸ hm
          exact absurd h1.symm hp
        · exact hm
      have hfun' : ∀ p g h', (p, g) ∈ tl → (p, h') ∈ tl → g = h' :=
        fun p g h' h1 h2 =>
          hfun p g h' (List.mem_cons_of_mem _ h1) (List.mem_cons_of_mem _ h2)
      simp only [tableLookup, List.find?]
      rw [show ((p₀, f₀).1 == pid) = false by simpa using hp]
      exact ih hfun' hm'

theorem mem_tableErase {t : List (Int × Nat)} {pid : Int} {e : Int × Nat} :
    e ∈ tableErase t pid ↔ e ∈ t ∧ ¬ e.1 = pid := by
  simp [tableErase, List.mem_filter]

theorem tableInsert_eq_append {t : List (Int × Nat)} {pid : Int} {f : Nat}
    (h : ∀ g, (pid, g) ∉ t) : tableInsert t pid f = t ++ [(pid, f)] := by
  rw [tableInsert, if_neg]
  intro hc
  rw [List.any_eq_true] at hc
  obtain ⟨e, he, hep⟩ := hc
  have : e.1 = pid := by simpa using hep
  exact h e.2 (by rw [← this]; exact he)

theorem setNode_key {s : List (Nat × LRUKNode)} {fid : Nat} {n : LRUKNode}
    {e : Nat × LRUKNode} (h : e ∈ setNode s fid n) : e.1 = fid ∨ e ∈ s := by
  rw [setNode] at h
  by_cases hc : s.any (fun e => e.1 == fid) = true
  · rw [if_pos hc] at h
    rw [List.mem_map] at h
    obtain ⟨a, ha, hae⟩ := h
    by_cases hfa : (a.1 == fid) = true
    · rw [if_pos hfa] at hae
      exact Or.inl (hae ▸ rfl)
    · rw [if_neg hfa] at hae
      exact Or.inr (hae ▸ ha)
  · rw [if_neg hc] at h
    rcases List.mem_append.mp h with h | h
    · exact Or.inr h
    · rw [List.mem_singleton] at h
      exact Or.inl (h ▸ rfl)

theorem RecordAccess_store_key {s : LRUKReplacerState} {fid : Nat}
    {e : Nat × LRUKNode} (h : e ∈ (s.RecordAccess fid).node_store) :
    e.1 = fid ∨ e ∈ s.node_store := by
  rw [LRUKReplacerState.RecordAccess] at h
  by_cases hr : s.replacer_size ≤ fid
  · rw [if_pos hr] at h
    exact Or.inr h
  · rw [if_neg hr] at h
    cases hl : lookupNode s.node_store fid with
    | none =>
      rw [hl] at h
      exact setNode_key h
    | some n =>
      rw [hl] at h
      exact setNode_key h

theorem SetEvictable_store_key {s : LRUKReplacerState} {fid : Nat} {b : Bool}
    {e : Nat × LRUKNode} (h : e ∈ (s.SetEvictable fid b).node_store) :
    e.1 = fid ∨ e ∈ s.node_store := by
  rw [LRUKReplacerState.SetEvictable] at h
  split at h
  · exact Or.inr h
  · split at h
    · exact setNode_key h
    · split at h
      · exact setNode_key h
      · exact Or.inr h

theorem Remove_store_sub {s : LRUKReplacerState} {fid : Nat}
    {e : Nat × LRUKNode} (h : e ∈ (s.Remove fid).node_store) :
    e ∈ s.node_store := by
  rw [LRUKReplacerState.Remove] at h
  split at h
  · exact h
  · split at h
    · exact h
    · exact List.mem_of_mem_filter h

theorem evictLoop_id (cur : Nat) :
    ∀ (l : List (Nat × LRUKNode)) (acc : EvictAcc),
    (evictLoop cur l acc).evict_id = acc.evict_id ∨
    ∃ g m, (g, m) ∈ l ∧ (evictLoop cur l acc).evict_id = Int.ofNat g := by
  intro l
  induction l with
  | nil => exact fun acc => Or.inl (Eq.refl _)
  | cons hd t ih =>
    intro acc
    obtain ⟨g₀, m₀⟩ := hd
    show (evictLoop cur ((g₀, m₀) :: t) acc).evict_id = acc.evict_id ∨ _
    rw [evictLoop]
    by_cases hm : (!m₀.is_evictable) = true
    · rw [if_pos hm]
      rcases ih acc with h | ⟨g, m, hg, hid⟩
      · exact Or.inl h
      · exact Or.inr ⟨g, m, List.mem_cons_of_mem _ hg, hid⟩
    · rw [if_neg hm]
      have step : ∀ acc' : EvictAcc,
          (acc'.evict_id = acc.evict_id ∨ acc'.evict_id = Int.ofNat g₀) →
          (evictLoop cur t acc').evict_id = acc.evict_id ∨
          ∃ g m, (g, m) ∈ (g₀, m₀) :: t ∧
            (evictLoop cur t acc').evict_id = Int.ofNat g := by
        intro acc' hacc'
        rcases ih acc' with h | ⟨g, m, hg, hid⟩
        · rcases hacc' with ha | ha
          · exact Or.inl (h.trans ha)
          · exact Or.inr ⟨g₀, m₀, List.mem_cons_self _ _, h.trans ha⟩
        · exact Or.inr ⟨g, m, List.mem_cons_of_mem _ hg, hid⟩
      by_cases h1 : m₀.GetKDistance cur > acc.mx
      · rw [if_pos h1]
        exact step _ (Or.inr (Eq.refl _))
      · rw [if_neg h1]
        by_cases h2 : m₀.GetKDistance cur = acc.mx
        · rw [if_pos h2]
          by_cases h3 : acc.early > m₀.GetEarlyTimestamp
          · rw [if_pos h3]
            exact step _ (Or.inr (Eq.refl _))
          · rw [if_neg h3]
            exact step _ (Or.inl (Eq.refl _))
        · rw [if_neg h2]
          exact step _ (Or.inl (Eq.refl _))

theorem Evict_some {s : LRUKReplacerState} {f : Nat} {r : LRUKReplacerState}
    (h : s.Evict = (some f, r)) :
    (∃ n, (f, n) ∈ s.node_store) ∧
    (∀ e, e ∈ r.node_store → e ∈ s.node_store) := by
  rw [LRUKReplacerState.Evict, LRUKReplacerState.EvictWith] at h
  by_cases hc : (evictLoop s.current_timestamp s.node_store
      ⟨0, 0, -1⟩).evict_id = -1
  · rw [if_pos hc] at h
    exact absurd (congrArg Prod.fst h) (by simp)
  · rw [if_neg hc] at h
    rcases evictLoop_id s.current_timestamp s.node_store ⟨0, 0, -1⟩ with
      hid | ⟨g, m, hg, hid⟩
    · exact absurd hid (by simpa using hc)
    · have hf : f = g := by
        have hfst := congrArg Prod.fst h
        simp only at hfst
        have h2 : (evictLoop s.current_timestamp s.node_store
            ⟨0, 0, -1⟩).evict_id.toNat = f := Option.some.inj hfst
        rw [hid] at h2
        simpa using h2.symm
      have hr : r = { s with
          node_store := eraseNode s.node_store
            (evictLoop s.current_timestamp s.node_store ⟨0, 0, -1⟩).evict_id.toNat,
          evictable_size := s.evictable_size - 1 } := (congrArg Prod.snd h).symm
      refine ⟨⟨m, hf ▸ hg⟩, ?_⟩
      intro e he
      rw [hr] at he
      exact List.mem_of_mem_filter he

theorem Inv.partition {st : BPMState} (hinv : Inv st) : Partition st := by
  constructor
  · intro f hf ⟨p, hp⟩
    exact hinv.disj p f hp hf
  · intro f
    constructor
    · exact hinv.cover f
    · intro h
      rcases h with h | ⟨p, hp⟩
      · exact hinv.free_lt f h
      · exact hinv.res_lt p f hp

theorem inv_initial (pool_size replacer_k : Nat) :
    Inv (BufferPoolManager.initial pool_size replacer_k) := by
  refine ⟨?_, ?_, ?_, ?_, ?_, ?_, ?_, ?_, ?_, ?_, ?_, ?_⟩
  · exact List.nodup_range _
  · intro f hf
    simpa [BufferPoolManager.initial] using hf
  · intro p f hf
    simp [BufferPoolManager.initial] at hf
  · intro p f g hf
    simp [BufferPoolManager.initial] at hf
  · intro p q f hf
    simp [BufferPoolManager.initial] at hf
  · intro p f hf
    simp [BufferPoolManager.initial] at hf
  · intro f hf
    exact Or.inl (by simpa [BufferPoolManager.initial] using hf)
  · intro p f hf
    simp [BufferPoolManager.initial] at hf
  · intro p f hf
    simp [BufferPoolManager.initial] at hf
  · intro fr x hx
    simp [BufferPoolManager.initial, LRUKReplacerState.new] at hx
  · simp [BufferPoolManager.initial]
  · simp [BufferPoolManager.initial]

theorem set_of_length_le {α : Type} :
    ∀ (l : List α) (i : Nat) (x : α), l.length ≤ i → l.set i x = l
  | [], _, _, _ => rfl
  | a :: t, 0, x, h => absurd h (by simp)
  | a :: t, i + 1, x, h => by
    simp only [List.set, List.cons.injEq, true_and]
    exact set_of_length_le t i x (by simpa using h)

/-- Overwriting a frame's metadata with a record carrying the same page id
preserves every frame's page id. -/
theorem pageAt_set_page_id (st : BPMState) (fr : Nat) (m : PageMeta)
    (hm : m.page_id = (pageAt st fr).page_id) :
    ∀ g, (pageAt { st with pages := st.pages.set fr m } g).page_id =
      (pageAt st g).page_id := by
  intro g
  by_cases hg : fr = g
  · subst hg
    by_cases hlt : fr < st.pages.length
    · show ((st.pages.set fr m).getD fr defaultPageMeta).page_id = _
      rw [getD_set_self st.pages fr m defaultPageMeta hlt]
      exact hm
    · show ((st.pages.set fr m).getD fr defaultPageMeta).page_id = _
      rw [set_of_length_le st.pages fr m (by omega)]
      rfl
  · show ((st.pages.set fr m).getD g defaultPageMeta).page_id = _
    rw [getD_set_ne st.pages fr g m defaultPageMeta hg]
    rfl

/-- `FlushPage` only touches a frame's dirty bit: the page table, free
list, replacer, sizes and every frame's page id are unchanged. -/
theorem FlushPage_shape (st : BPMState) (pid : Int) :
    (BufferPoolManager.FlushPage st pid).1.pool_size = st.pool_size ∧
    (BufferPoolManager.FlushPage st pid).1.next_page_id = st.next_page_id ∧
    (BufferPoolManager.FlushPage st pid).1.page_table = st.page_table ∧
    (BufferPoolManager.FlushPage st pid).1.free_list = st.free_list ∧
    (BufferPoolManager.FlushPage st pid).1.replacer = st.replacer ∧
    (BufferPoolManager.FlushPage st pid).1.pages.length = st.pages.length ∧
    ∀ g, (pageAt (BufferPoolManager.FlushPage st pid).1 g).page_id =
      (pageAt st g).page_id := by
  rw [BufferPoolManager.FlushPage]
  by_cases hp : pid = -1
  · rw [if_pos hp]
    exact ⟨rfl, rfl, rfl, rfl, rfl, rfl, fun g => rfl⟩
  · rw [if_neg hp]
    cases hl : tableLookup st.page_table pid with
    | none => exact ⟨rfl, rfl, rfl, rfl, rfl, rfl, fun g => rfl⟩
    | some f =>
      refine ⟨rfl, rfl, rfl, rfl, rfl, length_set _ _ _, ?_⟩
      exact pageAt_set_page_id st f { pageAt st f with is_dirty := false } rfl

theorem acquireFrame_none {st st' : BPMState}
    (h : BufferPoolManager.acquireFrame st = (st', none)) : st' = st := by
  rw [BufferPoolManager.acquireFrame] at h
  split at h
  · exact absurd (congrArg Prod.snd h) (by simp)
  · split at h
    · exact absurd (congrArg Prod.snd h) (by simp)
    · exact (congrArg Prod.fst h).symm

theorem acquireFrame_some {st st' : BPMState} {f : Nat} (hinv : Inv st)
    (h : BufferPoolManager.acquireFrame st = (st', some f)) : AcqSpec st st' f := by
  rw [BufferPoolManager.acquireFrame] at h
  split at h
  case _ fr rest hfl =>
    have hst : st' = { st with free_list := rest } := by
      simpa using (congrArg Prod.fst h).symm
    have hf : f = fr := by
      simpa using (congrArg Prod.snd h).symm
    subst hst
    subst hf
    have hmem : f ∈ st.free_list := by
      rw [hfl]
      exact List.mem_cons_self _ _
    have hnodup := hinv.free_nodup
    rw [hfl] at hnodup
    have hfnr : f ∉ rest := (List.nodup_cons.mp hnodup).1
    refine ⟨rfl, rfl, fun g => rfl, rfl, hinv.free_lt f hmem, ?_, ?_,
      (List.nodup_cons.mp hnodup).2, fun e he => he⟩
    · intro g
      constructor
      · intro hg
        refine ⟨by rw [hfl]; exact List.mem_cons_of_mem _ hg, ?_⟩
        intro hc
        exact hfnr (hc ▸ hg)
      · intro ⟨hg, hne⟩
        rw [hfl] at hg
        rcases List.mem_cons.mp hg with hg | hg
        · exact absurd hg hne
        · exact hg
    · intro p g
      constructor
      · intro hg
        refine ⟨hg, ?_⟩
        intro hc
        exact hinv.disj p g hg (hc ▸ hmem)
      · exact fun ⟨hg, _⟩ => hg
  case _ hfl =>
    split at h
    · rename_i fr r hev
      have hf : f = fr := by
        simpa using (congrArg Prod.snd h).symm
      subst hf
      set st1 : BPMState := { st with replacer := r } with hst1
      set old : PageMeta := pageAt st1 f with hold
      set st2 : BPMState := if old.is_dirty then
          (BufferPoolManager.FlushPage st1 old.page_id).1 else st1 with hst2
      have hst : st' = { st2 with page_table := tableErase st2.page_table old.page_id } := by
        simpa using (congrArg Prod.fst h).symm
      subst hst
      obtain ⟨⟨n, hfn⟩, hsub⟩ := Evict_some hev
      have hres : ∃ p, (p, f) ∈ st.page_table := by
        rcases hinv.store_cov f n hfn with hres | hfree
        · exact hres
        · rw [hfl] at hfree
          exact absurd hfree (List.not_mem_nil _)
      obtain ⟨P, hPf⟩ := hres
      have hpidP : old.page_id = P := hinv.meta_pid P f hPf
      have hsh : st2.pool_size = st.pool_size ∧ st2.next_page_id = st.next_page_id ∧
          st2.page_table = st.page_table ∧ st2.free_list = st.free_list ∧
          st2.pages.length = st.pages.length ∧
          (∀ g, (pageAt st2 g).page_id = (pageAt st g).page_id) ∧
          (∀ e, e ∈ st2.replacer.node_store → e ∈ r.node_store) := by
        rw [hst2]
        by_cases hd : old.is_dirty = true
        · rw [if_pos hd]
          obtain ⟨s1, s2, s3, s4, s5, s6, s7⟩ := FlushPage_shape st1 old.page_id
          exact ⟨s1, s2, s3, s4, s6, s7, fun e he => by rw [s5] at he; exact he⟩
        · rw [if_neg hd]
          exact ⟨rfl, rfl, rfl, rfl, rfl, fun g => rfl, fun e he => he⟩
      obtain ⟨sh1, sh2, sh3, sh4, sh5, sh6, sh7⟩ := hsh
      refine ⟨sh1, sh2, sh6, sh5, hinv.res_lt P f hPf, ?_, ?_, ?_, ?_⟩
      · intro g
        show g ∈ st2.free_list ↔ _
        rw [sh4, hfl]
        simp
      · intro p g
        show (p, g) ∈ tableErase st2.page_table old.page_id ↔ _
        rw [hpidP]
        constructor
        · intro hg
          obtain ⟨hg, hgP⟩ := mem_tableErase.mp hg
          rw [sh3] at hg
          refine ⟨hg, ?_⟩
          intro hc
          exact hgP (hinv.vals_inj p P g hg (hc ▸ hPf))
        · intro ⟨hg, hne⟩
          rw [mem_tableErase, sh3]
          refine ⟨hg, ?_⟩
          intro hc
          exact hne (hinv.keys_fun P g f (hc ▸ hg) hPf ▸ rfl)
      · show st2.free_list.Nodup
        rw [sh4, hfl]
        exact List.nodup_nil
      · intro e he
        exact hsub e (sh7 e he)
    · exact absurd (congrArg Prod.snd h) (by simp)

/-- Installing page `pid` into an acquired frame `f` (the common epilogue
of `NewPage` and a `FetchPage` miss) preserves the invariant, provided
`pid` is non-negative, absent from the page table, and below the resulting
allocator bound `nxt`. -/
theorem install_inv {st st1 : BPMState} {f : Nat} (pid nxt : Int)
    (hinv : Inv st) (hacq : AcqSpec st st1 f)
    (hpid0 : 0 ≤ pid)
    (hfresh : ∀ g, (pid, g) ∉ st1.page_table)
    (hpidlt : pid < nxt)
    (hnxt0 : 0 ≤ nxt)
    (hkeys : ∀ p g, (p, g) ∈ st.page_table → p < nxt) :
    Inv { st1 with
      replacer := (st1.replacer.RecordAccess f).SetEvictable f false,
      page_table := tableInsert st1.page_table pid f,
      pages := st1.pages.set f ⟨pid, 1, false⟩,
      next_page_id := nxt } := by
  have happ : tableInsert st1.page_table pid f = st1.page_table ++ [(pid, f)] :=
    tableInsert_eq_append hfresh
  have hmem' : ∀ {p : Int} {g : Nat}, (p, g) ∈ tableInsert st1.page_table pid f ↔
      (((p, g) ∈ st.page_table ∧ g ≠ f) ∨ (p = pid ∧ g = f)) := by
    intro p g
    rw [happ, List.mem_append, List.mem_singleton, hacq.table_char, Prod.mk.injEq]
  have hflen : f < st1.pages.length := by
    rw [hacq.pages_len, hinv.pages_len]
    exact hacq.f_lt
  refine ⟨hacq.free_nodup, ?_, ?_, ?_, ?_, ?_, ?_, ?_, ?_, ?_, ?_, hnxt0⟩
  · intro g hg
    show g < st1.pool_size
    rw [hacq.pool]
    exact hinv.free_lt g ((hacq.free_char g).mp hg).1
  · intro p g hg
    show g < st1.pool_size
    rw [hacq.pool]
    rcases hmem'.mp hg with ⟨hg, -⟩ | ⟨-, hg⟩
    · exact hinv.res_lt p g hg
    · exact hg ▸ hacq.f_lt
  · intro p g g' hg hg'
    rcases hmem'.mp hg with ⟨hg, hgf⟩ | ⟨hp, hg⟩
    · rcases hmem'.mp hg' with ⟨hg', hgf'⟩ | ⟨hp', hg'⟩
      · exact hinv.keys_fun p g g' hg hg'
      · exfalso
        apply hfresh g
        rw [hacq.table_char]
        exact ⟨hp' ▸ hg, hgf⟩
    · rcases hmem'.mp hg' with ⟨hg', hgf'⟩ | ⟨hp', hg'⟩
      · exfalso
        apply hfresh g'
        rw [hacq.table_char]
        exact ⟨hp ▸ hg', hgf'⟩
      · rw [hg, hg']
  · intro p q g hg hg'
    rcases hmem'.mp hg with ⟨hg, hgf⟩ | ⟨hp, hgf⟩
    · rcases hmem'.mp hg' with ⟨hg', hgf'⟩ | ⟨hp', hgf'⟩
      · exact hinv.vals_inj p q g hg hg'
      · exact absurd (hgf' ▸ rfl : g = f) hgf
    · rcases hmem'.mp hg' with ⟨hg', hgf'⟩ | ⟨hp', hgf'⟩
      · exact absurd (hgf ▸ rfl : g = f) hgf'
      · rw [hp, hp']
  · intro p g hg hgfree
    have hgf2 := (hacq.free_char g).mp hgfree
    rcases hmem'.mp hg with ⟨hg, hgf⟩ | ⟨-, hgf⟩
    · exact hinv.disj p g hg hgf2.1
    · exact hgf2.2 hgf
  · intro g hg
    rw [show ({ st1 with
        replacer := (st1.replacer.RecordAccess f).SetEvictable f false,
        page_table := tableInsert st1.page_table pid f,
        pages := st1.pages.set f ⟨pid, 1, false⟩,
        next_page_id := nxt } : BPMState).pool_size = st.pool_size from hacq.pool] at hg
    by_cases hgf : g = f
    · exact Or.inr ⟨pid, hmem'.mpr (Or.inr ⟨rfl, hgf⟩)⟩
    · rcases hinv.cover g hg with hfree | ⟨p, hp⟩
      · exact Or.inl ((hacq.free_char g).mpr ⟨hfree, hgf⟩)
      · exact Or.inr ⟨p, hmem'.mpr (Or.inl ⟨hp, hgf⟩)⟩
  · intro p g hg
    rcases hmem'.mp hg with ⟨hg, hgf⟩ | ⟨hp, hgf⟩
    · show ((st1.pages.set f ⟨pid, 1, false⟩).getD g defaultPageMeta).page_id = p
      rw [getD_set_ne st1.pages f g _ defaultPageMeta (fun hc => hgf (hc.symm))]
      show (pageAt st1 g).page_id = p
      rw [hacq.pages_pid g]
      exact hinv.meta_pid p g hg
    · show ((st1.pages.set f ⟨pid, 1, false⟩).getD g defaultPageMeta).page_id = p
      rw [hgf, getD_set_self st1.pages f _ defaultPageMeta hflen, hp]
  · intro p g hg
    rcases hmem'.mp hg with ⟨hg, -⟩ | ⟨hp, -⟩
    · exact ⟨(hinv.keys_lt p g hg).1, hkeys p g hg⟩
    · exact ⟨hp ▸ hpid0, hp ▸ hpidlt⟩
  · intro fr x hx
    have hkey := SetEvictable_store_key hx
    by_cases hfr : fr = f
    · exact Or.inl ⟨pid, hmem'.mpr (Or.inr ⟨rfl, hfr⟩)⟩
    · have hx' : (fr, x) ∈ (st1.replacer.RecordAccess f).node_store := by
        rcases hkey with hk | hk
        · exact absurd hk hfr
        · exact hk
      have hx'' : (fr, x) ∈ st1.replacer.node_store := by
        rcases RecordAccess_store_key hx' with hk | hk
        · exact absurd hk hfr
        · exact hk
      have hxst := hacq.store_sub _ hx''
      rcases hinv.store_cov fr x hxst with ⟨p, hp⟩ | hfree
      · exact Or.inl ⟨p, hmem'.mpr (Or.inl ⟨hp, hfr⟩)⟩
      · exact Or.inr ((hacq.free_char fr).mpr ⟨hfree, hfr⟩)
  · show (st1.pages.set f _).length = st1.pool_size
    rw [length_set, hacq.pages_len, hinv.pages_len, hacq.pool]

theorem getD_set_page_id (l : List PageMeta) (fr : Nat) (m : PageMeta)
    (hm : m.page_id = (l.getD fr defaultPageMeta).page_id) :
    ∀ g, ((l.set fr m).getD g defaultPageMeta).page_id =
      (l.getD g defaultPageMeta).page_id := by
  intro g
  by_cases hg : fr = g
  · subst hg
    by_cases hlt : fr < l.length
    · rw [getD_set_self l fr m defaultPageMeta hlt]
      exact hm
    · rw [set_of_length_le l fr m (by omega)]
  · rw [getD_set_ne l fr g m defaultPageMeta hg]

/-- `FlushPage` preserves the buffer pool invariant. -/
theorem FlushPage_inv (st : BPMState) (pid : Int) (hinv : Inv st) :
    Inv (BufferPoolManager.FlushPage st pid).1 := by
  obtain ⟨s1, s2, s3, s4, s5, s6, s7⟩ := FlushPage_shape st pid
  refine ⟨?_, ?_, ?_, ?_, ?_, ?_, ?_, ?_, ?_, ?_, ?_, ?_⟩
  · rw [s4]
    exact hinv.free_nodup
  · intro g hg
    rw [s1]
    exact hinv.free_lt g (s4 ▸ hg)
  · intro p g hg
    rw [s1]
    exact hinv.res_lt p g (s3 ▸ hg)
  · intro p g g' hg hg'
    exact hinv.keys_fun p g g' (s3 ▸ hg) (s3 ▸ hg')
  · intro p q g hg hg'
    exact hinv.vals_inj p q g (s3 ▸ hg) (s3 ▸ hg')
  · intro p g hg hgf
    exact hinv.disj p g (s3 ▸ hg) (s4 ▸ hgf)
  · intro g hg
    rw [s3, s4]
    exact hinv.cover g (s1 ▸ hg)
  · intro p g hg
    rw [s7 g]
    exact hinv.meta_pid p g (s3 ▸ hg)
  · intro p g hg
    rw [s2]
    exact hinv.keys_lt p g (s3 ▸ hg)
  · intro fr x hx
    rw [s3, s4]
    exact hinv.store_cov fr x (s5 ▸ hx)
  · rw [s6, s1]
    exact hinv.pages_len
  · rw [s2]
    exact hinv.next_nonneg

/-- `UnpinPage` preserves the buffer pool invariant. -/
theorem UnpinPage_inv (st : BPMState) (pid : Int) (d : Bool) (hinv : Inv st) :
    Inv (BufferPoolManager.UnpinPage st pid d).1 := by
  rw [BufferPoolManager.UnpinPage]
  split
  · exact hinv
  · rename_i f hl
    dsimp only
    split
    · exact hinv
    · rename_i hpin
      have hres : (pid, f) ∈ st.page_table := tableLookup_mem hl
      have hpid2 : ∀ (m1 m2 : PageMeta), m1.page_id = (pageAt st f).page_id →
          m2.page_id = (pageAt st f).page_id →
          ∀ g, (((st.pages.set f m1).set f m2).getD g defaultPageMeta).page_id =
            (st.pages.getD g defaultPageMeta).page_id := by
        intro m1 m2 h1 h2 g
        rw [getD_set_page_id (st.pages.set f m1) f m2 (by
            rw [getD_set_page_id st.pages f m1 h1 f]
            exact h2) g,
          getD_set_page_id st.pages f m1 h1 g]
      refine ⟨hinv.free_nodup, hinv.free_lt, hinv.res_lt, hinv.keys_fun,
        hinv.vals_inj, hinv.disj, hinv.cover, ?_, hinv.keys_lt, ?_, ?_,
        hinv.next_nonneg⟩
      · intro p g hg
        exact (hpid2 _ _ (by rfl) (by rfl) g).trans (hinv.meta_pid p g hg)
      · intro fr x hx
        rcases SetEvictable_store_key hx with hk | hk
        · exact Or.inl ⟨pid, hk ▸ hres⟩
        · exact hinv.store_cov fr x hk
      · show ((_ : List PageMeta).set f _).length = st.pool_size
        rw [length_set, length_set]
        exact hinv.pages_len

/-- `NewPage` preserves the buffer pool invariant. -/
theorem NewPage_inv (st : BPMState) (hinv : Inv st) :
    Inv (BufferPoolManager.NewPage st).1 := by
  rw [BufferPoolManager.NewPage]
  split
  · rename_i st1 hacq
    rw [acquireFrame_none hacq]
    exact hinv
  · rename_i st1 fr hacq
    have hspec := acquireFrame_some hinv hacq
    have hfresh : ∀ g, (st1.next_page_id, g) ∉ st1.page_table := by
      intro g hg
      have hg' := ((hspec.table_char _ g).mp hg).1
      have := (hinv.keys_lt _ g hg').2
      rw [hspec.next] at this
      exact absurd this (by omega)
    have hkeys : ∀ p g, (p, g) ∈ st.page_table → p < st1.next_page_id + 1 := by
      intro p g hg
      have := (hinv.keys_lt p g hg).2
      rw [hspec.next]
      omega
    exact install_inv st1.next_page_id (st1.next_page_id + 1) hinv hspec
      (by rw [hspec.next]; exact hinv.next_nonneg) hfresh (by omega)
      (by rw [hspec.next]; have := hinv.next_nonneg; omega) hkeys

/-- `FetchPage` preserves the buffer pool invariant, provided the fetched
page id was previously handed out by the allocator. -/
theorem FetchPage_inv (st : BPMState) (pid : Int) (hinv : Inv st)
    (hpid0 : 0 ≤ pid) (hpidlt : pid < st.next_page_id) :
    Inv (BufferPoolManager.FetchPage st pid).1 := by
  rw [BufferPoolManager.FetchPage]
  split
  · rename_i f hl
    dsimp only
    have hres : (pid, f) ∈ st.page_table := tableLookup_mem hl
    have hpid1 := getD_set_page_id st.pages f
      ⟨(pageAt st f).page_id, (pageAt st f).pin_count + 1, true⟩ rfl
    refine ⟨hinv.free_nodup, hinv.free_lt, hinv.res_lt, hinv.keys_fun,
      hinv.vals_inj, hinv.disj, hinv.cover, ?_, hinv.keys_lt, ?_, ?_,
      hinv.next_nonneg⟩
    · intro p g hg
      exact (hpid1 g).trans (hinv.meta_pid p g hg)
    · intro fr x hx
      rcases SetEvictable_store_key hx with hk | hk
      · exact Or.inl ⟨pid, hk ▸ hres⟩
      · rcases RecordAccess_store_key hk with hk' | hk'
        · exact Or.inl ⟨pid, hk' ▸ hres⟩
        · exact hinv.store_cov fr x hk'
    · show ((_ : List PageMeta).set f _).length = st.pool_size
      rw [length_set]
      exact hinv.pages_len
  · rename_i hl
    split
    · rename_i st1 hacq
      rw [acquireFrame_none hacq]
      exact hinv
    · rename_i st1 fr hacq
      have hspec := acquireFrame_some hinv hacq
      have hfresh : ∀ g, (pid, g) ∉ st1.page_table := by
        intro g hg
        exact tableLookup_none hl g ((hspec.table_char pid g).mp hg).1
      have hkeys : ∀ p g, (p, g) ∈ st.page_table → p < st1.next_page_id := by
        intro p g hg
        rw [hspec.next]
        exact (hinv.keys_lt p g hg).2
      exact install_inv pid st1.next_page_id hinv hspec hpid0 hfresh
        (by rw [hspec.next]; exact hpidlt)
        (by rw [hspec.next]; exact hinv.next_nonneg) hkeys

/-- `DeletePage` preserves the buffer pool invariant. -/
theorem DeletePage_inv (st : BPMState) (pid : Int) (hinv : Inv st) :
    Inv (BufferPoolManager.DeletePage st pid).1 := by
  rw [BufferPoolManager.DeletePage]
  split
  · exact hinv
  · rename_i f hl
    dsimp only
    split
    · exact hinv
    · rename_i hpin
      have hres : (pid, f) ∈ st.page_table := tableLookup_mem hl
      set st2 : BPMState := if (pageAt st f).is_dirty = true then
          (BufferPoolManager.FlushPage st pid).1 else st with hst2
      have hsh : st2.pool_size = st.pool_size ∧ st2.next_page_id = st.next_page_id ∧
          st2.page_table = st.page_table ∧ st2.free_list = st.free_list ∧
          st2.pages.length = st.pages.length ∧
          (∀ g, (pageAt st2 g).page_id = (pageAt st g).page_id) ∧
          st2.replacer = st.replacer := by
        rw [hst2]
        by_cases hd : (pageAt st f).is_dirty = true
        · rw [if_pos hd]
          obtain ⟨s1, s2, s3, s4, s5, s6, s7⟩ := FlushPage_shape st pid
          exact ⟨s1, s2, s3, s4, s6, s7, s5⟩
        · rw [if_neg hd]
          exact ⟨rfl, rfl, rfl, rfl, rfl, fun g => rfl, rfl⟩
      obtain ⟨sh1, sh2, sh3, sh4, sh5, sh6, sh7⟩ := hsh
      have hP : (pageAt st2 f).page_id = pid := by
        rw [sh6 f]
        exact hinv.meta_pid pid f hres
      have hfree : f ∉ st.free_list := hinv.disj pid f hres
      have hmemE : ∀ {p : Int} {g : Nat},
          (p, g) ∈ tableErase st2.page_table (pageAt st2 f).page_id ↔
          ((p, g) ∈ st.page_table ∧ p ≠ pid) := by
        intro p g
        rw [mem_tableErase, sh3, hP]
      have hgne : ∀ {p : Int} {g : Nat}, (p, g) ∈ st.page_table → p ≠ pid → g ≠ f := by
        intro p g hg hp hc
        exact hp (hinv.vals_inj p pid g hg (hc ▸ hres))
      have hmemF : ∀ {g : Nat}, g ∈ st2.free_list ++ [f] ↔ (g ∈ st.free_list ∨ g = f) := by
        intro g
        rw [List.mem_append, List.mem_singleton, sh4]
      refine ⟨?_, ?_, ?_, ?_, ?_, ?_, ?_, ?_, ?_, ?_, ?_, ?_⟩
      · show (st2.free_list ++ [f]).Nodup
        rw [sh4]
        refine hinv.free_nodup.append (List.nodup_singleton f) ?_
        intro a ha hb
        rw [List.mem_singleton] at hb
        exact hfree (hb ▸ ha)
      · intro g hg
        show g < st2.pool_size
        rw [sh1]
        rcases hmemF.mp hg with hg | hg
        · exact hinv.free_lt g hg
        · exact hg ▸ hinv.res_lt pid f hres
      · intro p g hg
        show g < st2.pool_size
        rw [sh1]
        exact hinv.res_lt p g (hmemE.mp hg).1
      · intro p g g' hg hg'
        exact hinv.keys_fun p g g' (hmemE.mp hg).1 (hmemE.mp hg').1
      · intro p q g hg hg'
        exact hinv.vals_inj p q g (hmemE.mp hg).1 (hmemE.mp hg').1
      · intro p g hg hgf
        obtain ⟨hg, hp⟩ := hmemE.mp hg
        rcases hmemF.mp hgf with hc | hc
        · exact hinv.disj p g hg hc
        · exact hgne hg hp hc
      · intro g hg
        rw [show st2.pool_size = st.pool_size from sh1] at hg
        rcases hinv.cover g hg with hg' | ⟨p, hp⟩
        · exact Or.inl (hmemF.mpr (Or.inl hg'))
        · by_cases hpp : p = pid
          · have : g = f := hinv.keys_fun pid g f (hpp ▸ hp) hres
            exact Or.inl (hmemF.mpr (Or.inr this))
          · exact Or.inr ⟨p, hmemE.mpr ⟨hp, hpp⟩⟩
      · intro p g hg
        show (pageAt st2 g).page_id = p
        rw [sh6 g]
        exact hinv.meta_pid p g (hmemE.mp hg).1
      · intro p g hg
        show 0 ≤ p ∧ p < st2.next_page_id
        rw [sh2]
        exact hinv.keys_lt p g (hmemE.mp hg).1
      · intro fr x hx
        have hx' : (fr, x) ∈ st.replacer.node_store := by
          have := Remove_store_sub hx
          rw [sh7] at this
          exact this
        rcases hinv.store_cov fr x hx' with ⟨p, hp⟩ | hfr
        · by_cases hpp : p = pid
          · have : fr = f := hinv.keys_fun pid fr f (hpp ▸ hp) hres
            exact Or.inr (hmemF.mpr (Or.inr this))
          · exact Or.inl ⟨p, hmemE.mpr ⟨hp, hpp⟩⟩
        · exact Or.inr (hmemF.mpr (Or.inl hfr))
      · show st2.pages.length = st2.pool_size
        rw [sh5, sh1]
        exact hinv.pages_len
      · show 0 ≤ st2.next_page_id
        rw [sh2]
        exact hinv.next_nonneg

/-- The invariant holds along every well-formed operation trace. -/
theorem run_inv : ∀ (ops : List BPMOp) (st : BPMState), Inv st →
    wfTrace st ops = true → Inv (run ops st)
  | [], st, hinv, _ => hinv
  | op :: rest, st, hinv, hwf => by
    have hstep : Inv (applyOp st op) ∧ wfTrace (applyOp st op) rest = true := by
      cases op with
      | newPage =>
        simp only [wfTrace, Bool.true_and] at hwf
        exact ⟨NewPage_inv st hinv, hwf⟩
      | fetchPage pid =>
        simp only [wfTrace, Bool.and_eq_true, decide_eq_true_eq] at hwf
        exact ⟨FetchPage_inv st pid hinv hwf.1.1 hwf.1.2, hwf.2⟩
      | unpinPage pid d =>
        simp only [wfTrace, Bool.true_and] at hwf
        exact ⟨UnpinPage_inv st pid d hinv, hwf⟩
      | flushPage pid =>
        simp only [wfTrace, Bool.true_and] at hwf
        exact ⟨FlushPage_inv st pid hinv, hwf⟩
      | deletePage pid =>
        simp only [wfTrace, Bool.true_and] at hwf
        exact ⟨DeletePage_inv st pid hinv, hwf⟩
    exact run_inv rest (applyOp st op) hstep.1 hstep.2

/-- Claim C9 (amended): from the initial buffer pool state, along every
sequence of new_page / fetch_page / unpin_page / flush_page / delete_page
operations in which each fetch_page argument is a page id previously
handed out by the allocator (0 <= pid < next_page_id at the time of the
call), the set of frames on the free list and the set of frames in the
page table are disjoint and their union is exactly the interval from 0 to
pool_size. (The unamended claim, which also admits fetch_page of a page
id never allocated, fails: see this claim's counterexample theorem.) -/
theorem c9_free_list_table_partition (pool_size replacer_k : Nat)
    (ops : List BPMOp)
    (hwf : wfTrace (BufferPoolManager.initial pool_size replacer_k) ops = true) :
    Partition (run ops (BufferPoolManager.initial pool_size replacer_k)) :=
  (run_inv ops (BufferPoolManager.initial pool_size replacer_k)
    (inv_initial pool_size replacer_k) hwf).partition

theorem c9_witness :
    wfTrace (BufferPoolManager.initial 2 2)
      [BPMOp.newPage, BPMOp.fetchPage 0, BPMOp.unpinPage 0 false,
       BPMOp.deletePage 0, BPMOp.newPage, BPMOp.newPage, BPMOp.newPage] = true ∧
    Partition (run
      [BPMOp.newPage, BPMOp.fetchPage 0, BPMOp.unpinPage 0 false,
       BPMOp.deletePage 0, BPMOp.newPage, BPMOp.newPage, BPMOp.newPage]
      (BufferPoolManager.initial 2 2)) :=
  ⟨by decide,
   c9_free_list_table_partition 2 2
     [BPMOp.newPage, BPMOp.fetchPage 0, BPMOp.unpinPage 0 false,
      BPMOp.deletePage 0, BPMOp.newPage, BPMOp.newPage, BPMOp.newPage]
     (by decide)⟩

end MiniBusTub
